import Mathlib

/-!
# Manager::discover (libonvifboss/src/onvifboss.cpp)

A shallow embedding of the discovery sweep `Manager::discover` and proofs of its
orchestration contract.

The sweep calls functions of the ONVIF protocol library (`broadcast`,
`prepareOnvifData`, `fillRTSP`, `getProfile`, `getDeviceInformation`) and two caller
callbacks (`getCredential`, `discoverFinished`).  Their bodies are not part of the
translation unit, so they are parameters of the model (`Env`).  Each of them may read
and change its by-reference arguments and the outside world (network, user, console);
the outside world is an explicit value of an arbitrary type `W` that is threaded
through every call in program order.

Modelling conventions:
* the external calls are total functions (they return, and throw nothing);
* the callbacks do not alias the `devices` vector (it is not part of `W`);
* `int` is `Int`: the only arithmetic is `i++` under the guard
  `i < number_of_devices`, which cannot overflow;
* control is cut at the two loop heads, so that a sweep that never leaves the
  `while (true)` loop is an infinite run of the machine, not an undefined value.
-/

namespace onvif

/-! ## The model -/

/-- The external collaborators and callbacks of `Manager::discover`. -/
structure Env (Data Session W : Type) where
  /-- Value of a default-constructed `Session session;` (line 27). -/
  sessionInit : Session
  /-- Value of a default-constructed `Data data;` (line 31). -/
  dataInit : Data
  /-- Models `int broadcast(Session&)`. -/
  broadcast : Session → W → Int × Session × W
  /-- Models `bool prepareOnvifData(int, Session&, Data&)`. -/
  prepareOnvifData : Int → Session → Data → W → Bool × Session × Data × W
  /-- Models the callback `std::function<bool(Data&)> getCredential`. -/
  getCredential : Data → W → Bool × Data × W
  /-- Models `int fillRTSP(Data&)`. -/
  fillRTSP : Data → W → Int × Data × W
  /-- Models `getProfile(Data&)`; its result, if any, is discarded by the code. -/
  getProfile : Data → W → Data × W
  /-- Models `getDeviceInformation(Data&)`; its result, if any, is discarded. -/
  getDeviceInformation : Data → W → Data × W
  /-- Models the callback `std::function<void()> discoverFinished`. -/
  discoverFinished : W → W

/-- One observable effect of the sweep.  The index `i` is the value of the loop
variable when the effect happened; `arg`/`out` are the contents of the local `data`
before and after the call. -/
inductive Event (Data : Type) where
  | broadcast (n : Int)
  | prepareOnvifData (i : Int) (ok : Bool) (out : Data)
  | getCredential (i : Int) (arg out : Data) (ok : Bool)
  | fillRTSP (i : Int) (arg out : Data) (rc : Int)
  | getProfile (i : Int) (arg out : Data)
  | getDeviceInformation (i : Int) (arg out : Data)
  | push_back (i : Int) (record : Data)
  | log (i : Int)
  | discoverFinished
  deriving DecidableEq, Repr

/-- Control points of `Manager::discover`. -/
inductive Pc (Data : Type) where
  /-- Function entry, before line 27. -/
  | entry
  /-- Head of the `for` loop (line 30), about to test `i < number_of_devices`. -/
  | forTest (i : Int)
  /-- Head of `while (true)` (line 33) in iteration `i`, with the local `data`. -/
  | whileTop (i : Int) (data : Data)
  /-- The function has returned (after line 50). -/
  | exit
  deriving DecidableEq, Repr

/-- Machine configuration: control point, locals, the outside world, the caller's
vector `*devices`, and the effects so far (oldest first). -/
structure Config (Data Session W : Type) where
  pc : Pc Data
  session : Session
  number_of_devices : Int
  world : W
  devices : List Data
  trace : List (Event Data)
  deriving DecidableEq, Repr

variable {Data Session W : Type}

/-- Configuration on entry to `discover(devices, discoverFinished, getCredential)`. -/
def start (env : Env Data Session W) (devices : List Data) (w : W) :
    Config Data Session W :=
  { pc := .entry, session := env.sessionInit, number_of_devices := 0, world := w,
    devices := devices, trace := [] }

/-- Execution from one control point to the next (lines 27-50). -/
def discoverStep (env : Env Data Session W) (c : Config Data Session W) :
    Config Data Session W :=
  match c.pc with
  | .entry =>
      -- Session session; int number_of_devices = broadcast(session); i = 0
      let b := env.broadcast c.session c.world
      { c with pc := .forTest 0, number_of_devices := b.1, session := b.2.1,
               world := b.2.2, trace := c.trace ++ [.broadcast b.1] }
  | .forTest i =>
      if i < c.number_of_devices then
        -- Data data; if (prepareOnvifData(i, session, data))
        let p := env.prepareOnvifData i c.session env.dataInit c.world
        if p.1 then
          { c with pc := .whileTop i p.2.2.1, session := p.2.1, world := p.2.2.2,
                   trace := c.trace ++ [.prepareOnvifData i true p.2.2.1] }
        else
          -- fall out of the if; i++
          { c with pc := .forTest (i + 1), session := p.2.1, world := p.2.2.2,
                   trace := c.trace ++ [.prepareOnvifData i false p.2.2.1] }
      else
        -- discoverFinished(); return
        { c with pc := .exit, world := env.discoverFinished c.world,
                 trace := c.trace ++ [.discoverFinished] }
  | .whileTop i data =>
      -- if (getCredential(data))
      let g := env.getCredential data c.world
      if g.1 then
        -- if (fillRTSP(data) == 0)
        let f := env.fillRTSP g.2.1 g.2.2
        if f.1 = 0 then
          -- getProfile(data); getDeviceInformation(data); devices->push_back(data);
          -- std::cout << ...; break; i++
          let q := env.getProfile f.2.1 f.2.2
          let d := env.getDeviceInformation q.1 q.2
          { c with pc := .forTest (i + 1), world := d.2,
                   devices := c.devices ++ [d.1],
                   trace := c.trace ++
                     [.getCredential i data g.2.1 true, .fillRTSP i g.2.1 f.2.1 f.1,
                      .getProfile i f.2.1 q.1, .getDeviceInformation i q.1 d.1,
                      .push_back i d.1, .log i] }
        else
          -- next iteration of while (true), same `data` object
          { c with pc := .whileTop i f.2.1, world := f.2.2,
                   trace := c.trace ++
                     [.getCredential i data g.2.1 true, .fillRTSP i g.2.1 f.2.1 f.1] }
      else
        -- else break; i++
        { c with pc := .forTest (i + 1), world := g.2.2,
                 trace := c.trace ++ [.getCredential i data g.2.1 false] }
  | .exit => c

/-- The configuration after `n` steps. -/
def run (env : Env Data Session W) : Nat → Config Data Session W → Config Data Session W
  | 0, c => c
  | n + 1, c => run env n (discoverStep env c)

/-- Whether the function has returned. -/
def Pc.isExit : Pc Data → Bool
  | .exit => true
  | _ => false

/-- The sweep `Manager::discover`, run for at most `fuel` steps: the final
configuration when the function has returned by then, `none` otherwise. -/
def discover (env : Env Data Session W) (fuel : Nat) (devices : List Data) (w : W) :
    Option (Config Data Session W) :=
  let c := run env fuel (start env devices w)
  if c.pc.isExit then some c else none

/-! ## Observations on traces -/

/-- The loop iteration an effect belongs to (none for `broadcast` and
`discoverFinished`, which happen outside the `for` loop). -/
def Event.index : Event Data → Option Int
  | .broadcast _ => none
  | .prepareOnvifData i _ _ => some i
  | .getCredential i _ _ _ => some i
  | .fillRTSP i _ _ _ => some i
  | .getProfile i _ _ => some i
  | .getDeviceInformation i _ _ => some i
  | .push_back i _ => some i
  | .log i => some i
  | .discoverFinished => none

/-- The effects of loop iteration `i`, in order. -/
def eventsOf (i : Int) (tr : List (Event Data)) : List (Event Data) :=
  tr.filter (fun e => e.index == some i)

/-- The `push_back` effects of a trace, as (iteration, record) pairs, in order. -/
def pushes (tr : List (Event Data)) : List (Int × Data) :=
  tr.filterMap (fun e => match e with
    | .push_back i d => some (i, d)
    | _ => none)

/-- Device `i` has reached the end of its loop iteration: it was skipped (parse
failed), abandoned (credential declined) or appended. -/
def Processed (i : Int) (tr : List (Event Data)) : Prop :=
  (∃ d, Event.prepareOnvifData i false d ∈ tr) ∨
  (∃ a o, Event.getCredential i a o false ∈ tr) ∨
  (∃ d, Event.push_back i d ∈ tr)

/-- Whether an effect is a call of `discoverFinished`. -/
def Event.isFinished : Event Data → Bool
  | .discoverFinished => true
  | _ => false

/-- Number of calls of `discoverFinished` in a trace. -/
def finishedCalls (tr : List (Event Data)) : Nat :=
  tr.countP Event.isFinished

/-- Effects after which the retry loop of the same device goes on: a successful
`prepareOnvifData`, a `getCredential` that returned true, a `fillRTSP` that returned
non-zero. -/
def Event.retrying : Event Data → Bool
  | .prepareOnvifData _ ok _ => ok
  | .getCredential _ _ _ ok => ok
  | .fillRTSP _ _ _ rc => rc != 0
  | _ => false

/-- Whether an effect is a call of `getCredential`. -/
def Event.isGetCredential : Event Data → Bool
  | .getCredential _ _ _ _ => true
  | _ => false

/-- Number of `getCredential` calls made in iteration `i`. -/
def credCalls (i : Int) (tr : List (Event Data)) : Nat :=
  (eventsOf i tr).countP Event.isGetCredential

/-! ## The retry loop seen from the callbacks -/

/-- The record and the world left by one refused attempt (one pass through the body
of `while (true)` that takes neither `break`). -/
def refusedAttempt (env : Env Data Session W) (dw : Data × W) : Data × W :=
  let g := env.getCredential dw.1 dw.2
  let f := env.fillRTSP g.2.1 g.2.2
  (f.2.1, f.2.2)

/-- Whether the attempt made on this record in this world leaves the retry loop:
`getCredential` returns false, or it returns true and `fillRTSP` returns 0. -/
def attemptEnds (env : Env Data Session W) (dw : Data × W) : Bool :=
  let g := env.getCredential dw.1 dw.2
  !g.1 || (env.fillRTSP g.2.1 g.2.2).1 == 0

/-- The record and the world before attempt number `k` (counted from 0) of a retry
loop entered with record `d` in world `w`, all earlier attempts having been refused. -/
def attemptState (env : Env Data Session W) (d : Data) (w : W) (k : Nat) : Data × W :=
  (refusedAttempt env)^[k] (d, w)

/-- The effects, in iteration `i`, of the first `k` attempts of a retry loop entered
with record `d` in world `w`, when all of them are refused: for each attempt a
`getCredential` that returns true and a `fillRTSP` on the record it left, each on the
record and in the world left by the attempt before. -/
def refusedEvents (env : Env Data Session W) (i : Int) (d : Data) (w : W) :
    Nat → List (Event Data)
  | 0 => []
  | k + 1 =>
      let aw := attemptState env d w k
      let g := env.getCredential aw.1 aw.2
      let f := env.fillRTSP g.2.1 g.2.2
      refusedEvents env i d w k ++
        [.getCredential i aw.1 g.2.1 true, .fillRTSP i g.2.1 f.2.1 f.1]

/-! ## The three-device scenario of the specification -/

/-- The three-device scenario of the specification, for the sweep started in world
`w`: `broadcast` returns 3; device 0 parses, its first `getCredential` returns true
and the following `fillRTSP` returns 0, giving `record` after `getProfile` and
`getDeviceInformation`; device 1 fails `prepareOnvifData`; device 2 parses and its
first `getCredential` returns false.  Each call is made in the world left by the
previous one. -/
def Scenario (env : Env Data Session W) (w : W) (record : Data) : Prop :=
  let b := env.broadcast env.sessionInit w
  let p0 := env.prepareOnvifData 0 b.2.1 env.dataInit b.2.2
  let g0 := env.getCredential p0.2.2.1 p0.2.2.2
  let f0 := env.fillRTSP g0.2.1 g0.2.2
  let q0 := env.getProfile f0.2.1 f0.2.2
  let d0 := env.getDeviceInformation q0.1 q0.2
  let p1 := env.prepareOnvifData 1 p0.2.1 env.dataInit d0.2
  let p2 := env.prepareOnvifData 2 p1.2.1 env.dataInit p1.2.2.2
  let g2 := env.getCredential p2.2.2.1 p2.2.2.2
  b.1 = 3 ∧ p0.1 = true ∧ g0.1 = true ∧ f0.1 = 0 ∧ d0.1 = record ∧
  p1.1 = false ∧ p2.1 = true ∧ g2.1 = false

/-! ## The per-device state machine of the specification -/

/-- States of one device in the sweep, after the specification:
`Discovered → (CredentialRequested ⇄ LoginFailed) → {Resolved | Abandoned}`.
`idle` and `skipped` are the states before `prepareOnvifData` and after its failure;
`loggedIn`, `profiled`, `informed` and `appended` are the stages of the transition
from `CredentialRequested` to `Resolved` (fetch profile, fetch device information,
append, emit the diagnostic).  A state with a record holds the content of the
device record at that point. -/
inductive DevState (Data : Type) where
  | idle
  | skipped
  | discovered (d : Data)
  | credentialRequested (d : Data)
  | loginFailed (d : Data)
  | loggedIn (d : Data)
  | profiled (d : Data)
  | informed (d : Data)
  | appended
  | resolved
  | abandoned
  deriving DecidableEq, Repr

/-- One transition of the specification's state machine for device `i`; `none` when
the machine does not allow the effect in that state.  Every call must be made on the
record held by the state. -/
def devStep [DecidableEq Data] (i : Int) :
    DevState Data → Event Data → Option (DevState Data)
  | .idle, .prepareOnvifData j ok d =>
      if j = i then some (if ok then .discovered d else .skipped) else none
  | .discovered d, .getCredential j a o ok =>
      if j = i ∧ a = d then some (if ok then .credentialRequested o else .abandoned)
      else none
  | .loginFailed d, .getCredential j a o ok =>
      if j = i ∧ a = d then some (if ok then .credentialRequested o else .abandoned)
      else none
  | .credentialRequested d, .fillRTSP j a o rc =>
      if j = i ∧ a = d then some (if rc = 0 then .loggedIn o else .loginFailed o)
      else none
  | .loggedIn d, .getProfile j a o =>
      if j = i ∧ a = d then some (.profiled o) else none
  | .profiled d, .getDeviceInformation j a o =>
      if j = i ∧ a = d then some (.informed o) else none
  | .informed d, .push_back j r =>
      if j = i ∧ r = d then some .appended else none
  | .appended, .log j =>
      if j = i then some .resolved else none
  | _, _ => none

/-- Run of the specification's state machine over a list of effects. -/
def devRun [DecidableEq Data] (i : Int) :
    DevState Data → List (Event Data) → Option (DevState Data)
  | s, [] => some s
  | s, e :: es =>
      match devStep i s e with
      | some s2 => devRun i s2 es
      | none => none

/-- The state of device `i` according to the specification's state machine, given
the effects so far; `none` when the effects of iteration `i` do not follow it. -/
def deviceState [DecidableEq Data] (i : Int) (tr : List (Event Data)) :
    Option (DevState Data) :=
  devRun i .idle (eventsOf i tr)

/-- No call for the device is pending: not started, skipped, resolved or abandoned. -/
def DevState.settled : DevState Data → Bool
  | .idle => true
  | .skipped => true
  | .resolved => true
  | .abandoned => true
  | _ => false

/-- The record has been appended. -/
def DevState.pushed : DevState Data → Bool
  | .appended => true
  | .resolved => true
  | _ => false

/-- A `fillRTSP` has returned 0. -/
def DevState.loginDone : DevState Data → Bool
  | .loggedIn _ => true
  | .profiled _ => true
  | .informed _ => true
  | .appended => true
  | .resolved => true
  | _ => false

/-! ## Invariants of the sweep -/

/-- What is known at each control point about the progress of the sweep started in
world `w0`: the device count is the one `broadcast` returned, the loop variable is
non-negative, every earlier device has been processed, and `discoverFinished` has
been called only if the function has returned, and then as its last effect. -/
def SweepInv (env : Env Data Session W) (w0 : W) (c : Config Data Session W) : Prop :=
  match c.pc with
  | .entry => c.trace = [] ∧ c.session = env.sessionInit ∧ c.world = w0
  | .forTest i =>
      c.number_of_devices = (env.broadcast env.sessionInit w0).1 ∧ 0 ≤ i ∧
      Event.discoverFinished ∉ c.trace ∧ ∀ j, 0 ≤ j → j < i → Processed j c.trace
  | .whileTop i _ =>
      c.number_of_devices = (env.broadcast env.sessionInit w0).1 ∧ 0 ≤ i ∧
      i < c.number_of_devices ∧
      Event.discoverFinished ∉ c.trace ∧ ∀ j, 0 ≤ j → j < i → Processed j c.trace
  | .exit =>
      ∃ pre, c.trace = pre ++ [Event.discoverFinished] ∧ Event.discoverFinished ∉ pre ∧
        ∀ j, 0 ≤ j → j < (env.broadcast env.sessionInit w0).1 → Processed j pre

/-- What is known at each control point about the records appended so far by the
sweep started in world `w0` with the vector holding `devs0`. -/
structure PushInv (env : Env Data Session W) (w0 : W) (devs0 : List Data)
    (c : Config Data Session W) : Prop where
  devices_eq : c.devices = devs0 ++ (pushes c.trace).map Prod.snd
  sorted : ((pushes c.trace).map Prod.fst).Pairwise (· < ·)
  push_sound : ∀ i d, Event.push_back i d ∈ c.trace →
    0 ≤ i ∧ i < (env.broadcast env.sessionInit w0).1 ∧
    (∃ d0, Event.prepareOnvifData i true d0 ∈ c.trace) ∧
    ∃ a o, Event.fillRTSP i a o 0 ∈ c.trace
  push_complete : ∀ i a o, Event.fillRTSP i a o 0 ∈ c.trace →
    ∃ d, Event.push_back i d ∈ c.trace
  at_for : ∀ i, c.pc = .forTest i →
    (∀ p ∈ pushes c.trace, p.1 < i) ∧ (pushes c.trace).length ≤ i.toNat ∧
    (i = 0 ∨ i ≤ (env.broadcast env.sessionInit w0).1)
  at_while : ∀ i d, c.pc = .whileTop i d →
    (∀ p ∈ pushes c.trace, p.1 < i) ∧ (pushes c.trace).length ≤ i.toNat ∧
    (∃ d0, Event.prepareOnvifData i true d0 ∈ c.trace)
  at_exit : c.pc = .exit →
    (pushes c.trace).length ≤ (env.broadcast env.sessionInit w0).1.toNat

/-- At the head of the `for` loop with loop variable `k` all effects so far belong to
earlier iterations; at the head of the retry loop of device `k` the effects of
iteration `k` so far are all of the kind after which the loop goes on. -/
def IdxInv (c : Config Data Session W) : Prop :=
  match c.pc with
  | .entry => c.trace = []
  | .forTest k => ∀ e ∈ c.trace, ∀ j, e.index = some j → j < k
  | .whileTop k _ =>
      ∀ e ∈ c.trace, ∀ j, e.index = some j → j < k ∨ (j = k ∧ e.retrying = true)
  | .exit => True

/-- The sweep is past iteration `i`. -/
def Past (i : Int) (c : Config Data Session W) : Prop :=
  match c.pc with
  | .entry => False
  | .forTest k => i < k
  | .whileTop k _ => i < k
  | .exit => True

/-- The record `d` pushed in iteration `i` after the effects `pre` is fully resolved,
in the sweep started with vector `devs` in world `w`.  There is a moment `m` of that
sweep at which it is at the head of the `for` loop with device `i`, no effect of
iteration `i` has happened yet, and `prepareOnvifData` succeeds there; the retry loop
is entered with the record and the world that call left; its first `k` attempts are
refused; attempt `k`, made on the record and in the world the refused attempts left,
has `getCredential` return true and `fillRTSP` return 0; `getProfile` and then
`getDeviceInformation` are applied to that record, each call in the world left by the
previous one, and `d` is the result.  The effects `pre` are exactly the effects up to
moment `m` followed by these calls, in this order. -/
def ResolvedBy (env : Env Data Session W) (devs : List Data) (w : W) (i : Int) (d : Data)
    (pre : List (Event Data)) : Prop :=
  ∃ (m k : Nat),
    let c0 := run env m (start env devs w)
    let p := env.prepareOnvifData i c0.session env.dataInit c0.world
    let aw := attemptState env p.2.2.1 p.2.2.2 k
    let g := env.getCredential aw.1 aw.2
    let f := env.fillRTSP g.2.1 g.2.2
    let q := env.getProfile f.2.1 f.2.2
    let r := env.getDeviceInformation q.1 q.2
    c0.pc = .forTest i ∧ i < c0.number_of_devices ∧ p.1 = true ∧
    (∀ e ∈ c0.trace, e.index ≠ some i) ∧
    (∀ j, j < k → attemptEnds env (attemptState env p.2.2.1 p.2.2.2 j) = false) ∧
    g.1 = true ∧ f.1 = 0 ∧ d = r.1 ∧
    pre = c0.trace ++ [.prepareOnvifData i true p.2.2.1] ++
      refusedEvents env i p.2.2.1 p.2.2.2 k ++
      [.getCredential i aw.1 g.2.1 true, .fillRTSP i g.2.1 f.2.1 0,
       .getProfile i f.2.1 q.1, .getDeviceInformation i q.1 r.1]

/-- At the head of the retry loop of device `i`, holding record `d`: the loop was
entered from a moment `m` of the sweep at which `prepareOnvifData` succeeded for `i`,
`k` attempts have been refused since, `d` and the world are what they left, and the
trace is the trace at moment `m` followed by the parse and the refused attempts. -/
def LoopInv (env : Env Data Session W) (devs : List Data) (w : W)
    (c : Config Data Session W) : Prop :=
  ∀ i d, c.pc = .whileTop i d →
    ∃ (m k : Nat),
      let c0 := run env m (start env devs w)
      let p := env.prepareOnvifData i c0.session env.dataInit c0.world
      c0.pc = .forTest i ∧ i < c0.number_of_devices ∧ p.1 = true ∧
      (∀ e ∈ c0.trace, e.index ≠ some i) ∧
      (∀ j, j < k → attemptEnds env (attemptState env p.2.2.1 p.2.2.2 j) = false) ∧
      attemptState env p.2.2.1 p.2.2.2 k = (d, c.world) ∧
      c.trace = c0.trace ++ [.prepareOnvifData i true p.2.2.1] ++
        refusedEvents env i p.2.2.1 p.2.2.2 k

/-- Every `push_back` in the trace is preceded by the attempts that resolved its
record. -/
def BlockInv (env : Env Data Session W) (devs : List Data) (w : W)
    (c : Config Data Session W) : Prop :=
  ∀ pre post i d, c.trace = pre ++ Event.push_back i d :: post →
    ResolvedBy env devs w i d pre

/-- An iteration that appended a record has neither a failed parse nor a declined
credential request. -/
def ExclInv (c : Config Data Session W) : Prop :=
  ∀ i d, Event.push_back i d ∈ c.trace →
    (∀ x, Event.prepareOnvifData i false x ∉ c.trace) ∧
    (∀ a o, Event.getCredential i a o false ∉ c.trace)

/-- At every control point the effects of every iteration follow the state machine;
all devices are settled except the one whose retry loop is running, which is in
`Discovered` or `LoginFailed` with the record the loop holds. -/
def DevInv [DecidableEq Data] (c : Config Data Session W) : Prop :=
  ∀ i, ∃ st, deviceState i c.trace = some st ∧
    match c.pc with
    | .whileTop k d =>
        if i = k then st = .discovered d ∨ st = .loginFailed d else st.settled = true
    | _ => st.settled = true

/-! ## Concrete environments used to exercise the model -/

/-- Three devices answer.  Device 0 parses, the user supplies a credential and the
login works; device 1 does not parse; for device 2 the user declines.  A record is a
number; each call adds its own mark to it.  The world counts the calls made. -/
def scenarioEnv : Env Nat Nat Nat where
  sessionInit := 0
  dataInit := 0
  broadcast := fun _ w => (3, 3, w + 1)
  prepareOnvifData := fun i s _ w => (i != 1, s, 1000 * (i.toNat + 1), w + 1)
  getCredential := fun d w => (d < 2000, d + 1, w + 1)
  fillRTSP := fun d w => (0, d + 10, w + 1)
  getProfile := fun d w => (d + 100, w + 1)
  getDeviceInformation := fun d w => (d + 200, w + 1)
  discoverFinished := fun w => w + 1

/-- Two devices answer.  The login to device 0 is refused twice and accepted at the
third attempt (the world counts the calls, `fillRTSP` succeeds from the sixth call
on); device 1 is accepted at once. -/
def retryEnv : Env Nat Nat Nat where
  sessionInit := 0
  dataInit := 0
  broadcast := fun _ w => (2, 2, w + 1)
  prepareOnvifData := fun i s _ w => (true, s, 1000 * (i.toNat + 1), w + 1)
  getCredential := fun d w => (true, d + 1, w + 1)
  fillRTSP := fun d w => (if w < 7 then 401 else 0, d + 10, w + 1)
  getProfile := fun d w => (d + 100, w + 1)
  getDeviceInformation := fun d w => (d + 200, w + 1)
  discoverFinished := fun w => w + 1

/-- One device answers, the user always supplies a credential and the login is
always refused. -/
def stuckEnv : Env Nat Nat Nat where
  sessionInit := 0
  dataInit := 0
  broadcast := fun _ w => (1, 1, w)
  prepareOnvifData := fun _ s _ w => (true, s, 7, w)
  getCredential := fun d w => (true, d, w)
  fillRTSP := fun d w => (401, d, w)
  getProfile := fun d w => (d, w)
  getDeviceInformation := fun d w => (d, w)
  discoverFinished := fun w => w

/-- No device answers. -/
def emptyEnv : Env Nat Nat Nat where
  sessionInit := 0
  dataInit := 0
  broadcast := fun s w => (0, s, w)
  prepareOnvifData := fun _ s d w => (true, s, d, w)
  getCredential := fun d w => (true, d, w)
  fillRTSP := fun d w => (0, d, w)
  getProfile := fun d w => (d, w)
  getDeviceInformation := fun d w => (d, w)
  discoverFinished := fun w => w

/-! ## Theorems -/

/-! ### Basic facts about the machine -/

theorem run_succ (env : Env Data Session W) (n : Nat) (c : Config Data Session W) :
    run env (n + 1) c = discoverStep env (run env n c) := by
  induction n generalizing c with
  | zero => rfl
  | succ n ih => exact ih (discoverStep env c)

theorem run_add (env : Env Data Session W) (m n : Nat) (c : Config Data Session W) :
    run env (m + n) c = run env n (run env m c) := by
  induction m generalizing c with
  | zero => simp [run]
  | succ m ih =>
    have h : m + 1 + n = (m + n) + 1 := by omega
    rw [h]
    exact ih (discoverStep env c)

/-- Invariance principle: a property of the first configuration that every step
preserves holds after any number of steps. -/
theorem run_inv (env : Env Data Session W) (P : Config Data Session W → Prop)
    (hstep : ∀ c, P c → P (discoverStep env c)) :
    ∀ (n : Nat) (c : Config Data Session W), P c → P (run env n c) := by
  intro n
  induction n with
  | zero => intro c h; exact h
  | succ n ih => intro c h; exact ih _ (hstep c h)

/-- Case analysis on one step: the seven ways of leaving a control point. -/
theorem discoverStep_cases (env : Env Data Session W) (c : Config Data Session W)
    (P : Config Data Session W → Prop)
    (h_entry : c.pc = .entry →
      P { c with pc := .forTest 0,
                 number_of_devices := (env.broadcast c.session c.world).1,
                 session := (env.broadcast c.session c.world).2.1,
                 world := (env.broadcast c.session c.world).2.2,
                 trace := c.trace ++ [.broadcast (env.broadcast c.session c.world).1] })
    (h_parsed : ∀ i, c.pc = .forTest i → i < c.number_of_devices →
      (env.prepareOnvifData i c.session env.dataInit c.world).1 = true →
      P { c with pc := .whileTop i (env.prepareOnvifData i c.session env.dataInit c.world).2.2.1,
                 session := (env.prepareOnvifData i c.session env.dataInit c.world).2.1,
                 world := (env.prepareOnvifData i c.session env.dataInit c.world).2.2.2,
                 trace := c.trace ++ [.prepareOnvifData i true
                   (env.prepareOnvifData i c.session env.dataInit c.world).2.2.1] })
    (h_skipped : ∀ i, c.pc = .forTest i → i < c.number_of_devices →
      (env.prepareOnvifData i c.session env.dataInit c.world).1 = false →
      P { c with pc := .forTest (i + 1),
                 session := (env.prepareOnvifData i c.session env.dataInit c.world).2.1,
                 world := (env.prepareOnvifData i c.session env.dataInit c.world).2.2.2,
                 trace := c.trace ++ [.prepareOnvifData i false
                   (env.prepareOnvifData i c.session env.dataInit c.world).2.2.1] })
    (h_finished : ∀ i, c.pc = .forTest i → ¬ i < c.number_of_devices →
      P { c with pc := .exit, world := env.discoverFinished c.world,
                 trace := c.trace ++ [.discoverFinished] })
    (h_resolved : ∀ i data, c.pc = .whileTop i data →
      (env.getCredential data c.world).1 = true →
      (env.fillRTSP (env.getCredential data c.world).2.1
        (env.getCredential data c.world).2.2).1 = 0 →
      P (let g := env.getCredential data c.world
         let f := env.fillRTSP g.2.1 g.2.2
         let q := env.getProfile f.2.1 f.2.2
         let d := env.getDeviceInformation q.1 q.2
         { c with pc := .forTest (i + 1), world := d.2,
                  devices := c.devices ++ [d.1],
                  trace := c.trace ++
                    [.getCredential i data g.2.1 true, .fillRTSP i g.2.1 f.2.1 0,
                     .getProfile i f.2.1 q.1, .getDeviceInformation i q.1 d.1,
                     .push_back i d.1, .log i] }))
    (h_refused : ∀ i data, c.pc = .whileTop i data →
      (env.getCredential data c.world).1 = true →
      (env.fillRTSP (env.getCredential data c.world).2.1
        (env.getCredential data c.world).2.2).1 ≠ 0 →
      P (let g := env.getCredential data c.world
         let f := env.fillRTSP g.2.1 g.2.2
         { c with pc := .whileTop i f.2.1, world := f.2.2,
                  trace := c.trace ++
                    [.getCredential i data g.2.1 true, .fillRTSP i g.2.1 f.2.1 f.1] }))
    (h_declined : ∀ i data, c.pc = .whileTop i data →
      (env.getCredential data c.world).1 = false →
      P { c with pc := .forTest (i + 1), world := (env.getCredential data c.world).2.2,
                 trace := c.trace ++ [.getCredential i data
                   (env.getCredential data c.world).2.1 false] })
    (h_exit : c.pc = .exit → P c) :
    P (discoverStep env c) := by
  unfold discoverStep
  split
  next h => exact h_entry h
  next i h =>
    by_cases hlt : i < c.number_of_devices
    · by_cases hp : (env.prepareOnvifData i c.session env.dataInit c.world).1 = true
      · simp only [hlt, hp, if_true]
        exact h_parsed i h hlt hp
      · have hp2 : (env.prepareOnvifData i c.session env.dataInit c.world).1 = false := by
          simpa using hp
        simp only [hlt, hp2, if_true]
        exact h_skipped i h hlt hp2
    · simp only [hlt, if_false]
      exact h_finished i h hlt
  next i data h =>
    by_cases hg : (env.getCredential data c.world).1 = true
    · by_cases hf : (env.fillRTSP (env.getCredential data c.world).2.1
          (env.getCredential data c.world).2.2).1 = 0
      · simp only [hg, hf, if_true]
        exact h_resolved i data h hg hf
      · simp only [hg, hf, if_true, if_false]
        exact h_refused i data h hg hf
    · have hg2 : (env.getCredential data c.world).1 = false := by simpa using hg
      simp only [hg2]
      exact h_declined i data h hg2
  next h => exact h_exit h

theorem discoverStep_exit (env : Env Data Session W) (c : Config Data Session W)
    (h : c.pc = .exit) : discoverStep env c = c := by
  unfold discoverStep
  simp [h]

theorem run_exit (env : Env Data Session W) (n : Nat) (c : Config Data Session W)
    (h : c.pc = .exit) : run env n c = c := by
  induction n with
  | zero => rfl
  | succ n ih => rw [run_succ, ih, discoverStep_exit env c h]

theorem discover_eq_some (env : Env Data Session W) (fuel : Nat) (devs : List Data)
    (w : W) (c : Config Data Session W) (h : discover env fuel devs w = some c) :
    c = run env fuel (start env devs w) ∧ c.pc = .exit := by
  unfold discover at h
  simp only at h
  split at h
  next hx =>
    cases h
    refine ⟨rfl, ?_⟩
    revert hx
    cases (run env fuel (start env devs w)).pc <;> simp [Pc.isExit]
  next => cases h

/-! ### Completion -/

theorem Processed_append {i : Int} {tr : List (Event Data)} (h : Processed i tr)
    (evs : List (Event Data)) : Processed i (tr ++ evs) := by
  rcases h with ⟨d, h⟩ | ⟨a, o, h⟩ | ⟨d, h⟩
  · exact Or.inl ⟨d, List.mem_append_left _ h⟩
  · exact Or.inr (Or.inl ⟨a, o, List.mem_append_left _ h⟩)
  · exact Or.inr (Or.inr ⟨d, List.mem_append_left _ h⟩)

theorem SweepInv_step (env : Env Data Session W) (w0 : W) (c : Config Data Session W)
    (h : SweepInv env w0 c) : SweepInv env w0 (discoverStep env c) := by
  apply discoverStep_cases
  · intro hpc
    simp only [SweepInv, hpc] at h
    obtain ⟨h1, h2, h3⟩ := h
    simp only [SweepInv]
    rw [h2, h3]
    refine ⟨rfl, le_refl _, by simp [h1], fun j hj hj0 => ?_⟩
    omega
  · intro i hpc hlt hp
    simp only [SweepInv, hpc] at h
    obtain ⟨h1, h2, h3, h4⟩ := h
    simp only [SweepInv]
    refine ⟨h1, h2, hlt, by simpa using h3, fun j hj hji => Processed_append (h4 j hj hji) _⟩
  · intro i hpc hlt hp
    simp only [SweepInv, hpc] at h
    obtain ⟨h1, h2, h3, h4⟩ := h
    simp only [SweepInv]
    refine ⟨h1, by omega, by simpa using h3, fun j hj hji => ?_⟩
    by_cases he : j = i
    · subst he
      exact Or.inl ⟨_, List.mem_append_right _ (.head _)⟩
    · exact Processed_append (h4 j hj (by omega)) _
  · intro i hpc hlt
    simp only [SweepInv, hpc] at h
    obtain ⟨h1, h2, h3, h4⟩ := h
    simp only [SweepInv]
    exact ⟨c.trace, rfl, h3, fun j hj hjn => h4 j hj (by omega)⟩
  · intro i data hpc hg hf
    simp only [SweepInv, hpc] at h
    obtain ⟨h1, h2, hlt, h3, h4⟩ := h
    simp only [SweepInv]
    refine ⟨h1, by omega, by simpa using h3, fun j hj hji => ?_⟩
    by_cases he : j = i
    · subst he
      exact Or.inr (Or.inr ⟨_, List.mem_append_right _
        (.tail _ (.tail _ (.tail _ (.tail _ (.head _)))))⟩)
    · exact Processed_append (h4 j hj (by omega)) _
  · intro i data hpc hg hf
    simp only [SweepInv, hpc] at h
    obtain ⟨h1, h2, hlt, h3, h4⟩ := h
    simp only [SweepInv]
    refine ⟨h1, h2, hlt, by simpa using h3, fun j hj hji => Processed_append (h4 j hj hji) _⟩
  · intro i data hpc hg
    simp only [SweepInv, hpc] at h
    obtain ⟨h1, h2, hlt, h3, h4⟩ := h
    simp only [SweepInv]
    refine ⟨h1, by omega, by simpa using h3, fun j hj hji => ?_⟩
    by_cases he : j = i
    · subst he
      exact Or.inr (Or.inl ⟨_, _, List.mem_append_right _ (.head _)⟩)
    · exact Processed_append (h4 j hj (by omega)) _
  · intro _
    exact h

theorem SweepInv_run (env : Env Data Session W) (devs : List Data) (w0 : W) (n : Nat) :
    SweepInv env w0 (run env n (start env devs w0)) := by
  apply run_inv env (SweepInv env w0) (SweepInv_step env w0)
  simp [SweepInv, start]

/-- C1: in every sweep that returns, `discoverFinished` is called exactly once, as
the last effect (so no `getCredential`, `fillRTSP` or `push_back` follows it), and
before it every device index in `[0, N)`, `N` the count returned by `broadcast`, has
been skipped, abandoned or appended. -/
theorem discoverFinished_once_and_last (env : Env Data Session W) (fuel : Nat)
    (devs : List Data) (w : W) (c : Config Data Session W)
    (h : discover env fuel devs w = some c) :
    ∃ pre, c.trace = pre ++ [Event.discoverFinished] ∧
      Event.discoverFinished ∉ pre ∧
      ∀ i, 0 ≤ i → i < (env.broadcast env.sessionInit w).1 → Processed i pre := by
  obtain ⟨hc, hpc⟩ := discover_eq_some env fuel devs w c h
  have hinv := SweepInv_run env devs w fuel
  rw [← hc] at hinv
  simpa only [SweepInv, hpc] using hinv

theorem discoverFinished_once_and_last_witness :
    discover scenarioEnv 7 [] 0 = some (run scenarioEnv 7 (start scenarioEnv [] 0)) ∧
    ∃ pre, (run scenarioEnv 7 (start scenarioEnv [] 0)).trace
        = pre ++ [Event.discoverFinished] ∧
      Event.discoverFinished ∉ pre ∧
      ∀ i, 0 ≤ i → i < (3 : Int) → Processed i pre :=
  ⟨by decide,
   discoverFinished_once_and_last scenarioEnv 7 [] 0
     (run scenarioEnv 7 (start scenarioEnv [] 0)) (by decide)⟩

/-! ### The appended records -/

@[simp] theorem pushes_nil : pushes ([] : List (Event Data)) = [] := rfl

@[simp] theorem pushes_append (a b : List (Event Data)) :
    pushes (a ++ b) = pushes a ++ pushes b := by
  simp [pushes, List.filterMap_append]

@[simp] theorem pushes_cons (e : Event Data) (tr : List (Event Data)) :
    pushes (e :: tr) =
      (match e with
        | .push_back i d => [(i, d)]
        | _ => []) ++ pushes tr := by
  cases e <;> simp [pushes, List.filterMap_cons]

theorem mem_pushes {i : Int} {d : Data} {tr : List (Event Data)} :
    (i, d) ∈ pushes tr ↔ Event.push_back i d ∈ tr := by
  induction tr with
  | nil => simp
  | cons e tr ih =>
    cases e <;> simp [ih]

/-- A step that appends effects other than a successful `fillRTSP` and a
`push_back`, and leaves the vector alone, keeps the facts about appended records. -/
theorem PushInv_grow (env : Env Data Session W) (w0 : W) (devs0 : List Data)
    (c c2 : Config Data Session W) (evs : List (Event Data))
    (h : PushInv env w0 devs0 c)
    (htr : c2.trace = c.trace ++ evs) (hdev : c2.devices = c.devices)
    (hpush : pushes evs = [])
    (hfill : ∀ i a o, Event.fillRTSP i a o 0 ∉ evs)
    (hfor : ∀ i, c2.pc = .forTest i →
      (∀ p ∈ pushes c.trace, p.1 < i) ∧ (pushes c.trace).length ≤ i.toNat ∧
      (i = 0 ∨ i ≤ (env.broadcast env.sessionInit w0).1))
    (hwhile : ∀ i d, c2.pc = .whileTop i d →
      (∀ p ∈ pushes c.trace, p.1 < i) ∧ (pushes c.trace).length ≤ i.toNat ∧
      (∃ d0, Event.prepareOnvifData i true d0 ∈ c.trace ++ evs))
    (hexit : c2.pc = .exit →
      (pushes c.trace).length ≤ (env.broadcast env.sessionInit w0).1.toNat) :
    PushInv env w0 devs0 c2 := by
  have hp : pushes c2.trace = pushes c.trace := by rw [htr, pushes_append, hpush, List.append_nil]
  have hmem : ∀ i d, Event.push_back i d ∈ c2.trace → Event.push_back i d ∈ c.trace := by
    intro i d hm
    rw [← mem_pushes] at hm ⊢
    rwa [hp] at hm
  refine ⟨?_, ?_, ?_, ?_, ?_, ?_, ?_⟩
  · rw [hdev, hp]; exact h.devices_eq
  · rw [hp]; exact h.sorted
  · intro i d hm
    obtain ⟨a, b, ⟨d0, hd0⟩, ⟨x, y, hxy⟩⟩ := h.push_sound i d (hmem i d hm)
    rw [htr]
    exact ⟨a, b, ⟨d0, List.mem_append_left _ hd0⟩, ⟨x, y, List.mem_append_left _ hxy⟩⟩
  · intro i a o hm
    rw [htr, List.mem_append] at hm
    rcases hm with hm | hm
    · obtain ⟨d, hd⟩ := h.push_complete i a o hm
      exact ⟨d, by rw [htr]; exact List.mem_append_left _ hd⟩
    · exact absurd hm (hfill i a o)
  · intro i hpc
    rw [hp]; exact hfor i hpc
  · intro i d hpc
    rw [hp, htr]; exact hwhile i d hpc
  · intro hpc
    rw [hp]; exact hexit hpc

theorem PushInv_step (env : Env Data Session W) (w0 : W) (devs0 : List Data)
    (c : Config Data Session W) (hs : SweepInv env w0 c) (h : PushInv env w0 devs0 c) :
    PushInv env w0 devs0 (discoverStep env c) := by
  apply discoverStep_cases
  · intro hpc
    simp only [SweepInv, hpc] at hs
    refine PushInv_grow env w0 devs0 c _ _ h rfl rfl (by simp) (by simp) ?_ ?_ ?_
    · intro i hi
      simp only [Pc.forTest.injEq] at hi
      subst hi
      simp [hs.1]
    · intro i d hi; simp at hi
    · intro hi; simp at hi
  · intro i hpc hlt hp
    simp only [SweepInv, hpc] at hs
    obtain ⟨ha, hb, hc⟩ := h.at_for i hpc
    refine PushInv_grow env w0 devs0 c _ _ h rfl rfl (by simp) (by simp) ?_ ?_ ?_
    · intro j hj; simp at hj
    · intro j d hj
      simp only [Pc.whileTop.injEq] at hj
      obtain ⟨rfl, rfl⟩ := hj
      exact ⟨ha, hb, _, List.mem_append_right _ (.head _)⟩
    · intro hi; simp at hi
  · intro i hpc hlt hp
    simp only [SweepInv, hpc] at hs
    obtain ⟨ha, hb, hc⟩ := h.at_for i hpc
    refine PushInv_grow env w0 devs0 c _ _ h rfl rfl (by simp) (by simp) ?_ ?_ ?_
    · intro j hj
      simp only [Pc.forTest.injEq] at hj
      subst hj
      refine ⟨fun p hp => by have := ha p hp; omega, by omega, Or.inr ?_⟩
      rw [← hs.1]; omega
    · intro j d hj; simp at hj
    · intro hi; simp at hi
  · intro i hpc hlt
    simp only [SweepInv, hpc] at hs
    obtain ⟨ha, hb, hc⟩ := h.at_for i hpc
    refine PushInv_grow env w0 devs0 c _ _ h rfl rfl (by simp) (by simp) ?_ ?_ ?_
    · intro j hj; simp at hj
    · intro j d hj; simp at hj
    · intro _
      rw [hs.1] at hlt
      omega
  · intro i data hpc hg hf
    simp only [SweepInv, hpc] at hs
    obtain ⟨ha, hb, d0, hd0⟩ := h.at_while i data hpc
    obtain ⟨hN, h0, hlt, -, -⟩ := hs
    rw [hN] at hlt
    refine ⟨?_, ?_, ?_, ?_, ?_, ?_, ?_⟩
    · simp [h.devices_eq]
    · simp only [pushes_append, pushes_cons, pushes_nil, List.nil_append, List.append_nil,
        List.map_append, List.map_cons, List.map_nil, List.pairwise_append]
      refine ⟨h.sorted, by simp, ?_⟩
      intro a hmem b hb2
      simp only [List.mem_singleton] at hb2
      subst hb2
      obtain ⟨p, hp, rfl⟩ := List.mem_map.1 hmem
      exact ha p hp
    · intro j d hm
      simp only [List.mem_append] at hm
      rcases hm with hm | hm
      · obtain ⟨a, b, ⟨x0, hx0⟩, ⟨x, y, hxy⟩⟩ := h.push_sound j d hm
        exact ⟨a, b, ⟨x0, List.mem_append_left _ hx0⟩, ⟨x, y, List.mem_append_left _ hxy⟩⟩
      · simp only [List.mem_cons, Event.push_back.injEq, reduceCtorEq, false_or,
          List.not_mem_nil, or_false] at hm
        obtain ⟨rfl, -⟩ := hm
        exact ⟨h0, hlt, ⟨d0, List.mem_append_left _ hd0⟩,
          ⟨_, _, List.mem_append_right _ (.tail _ (.head _))⟩⟩
    · intro j a o hm
      simp only [List.mem_append] at hm
      rcases hm with hm | hm
      · obtain ⟨d, hd⟩ := h.push_complete j a o hm
        exact ⟨d, List.mem_append_left _ hd⟩
      · simp only [List.mem_cons, Event.fillRTSP.injEq, reduceCtorEq, false_or,
          List.not_mem_nil, or_false] at hm
        obtain ⟨rfl, -⟩ := hm
        exact ⟨_, List.mem_append_right _ (.tail _ (.tail _ (.tail _ (.tail _ (.head _)))))⟩
    · intro j hj
      simp only [Pc.forTest.injEq] at hj
      subst hj
      simp only [pushes_append, pushes_cons, pushes_nil, List.nil_append, List.append_nil,
        List.mem_append, List.mem_singleton, List.length_append, List.length_singleton]
      refine ⟨?_, by omega, Or.inr (by omega)⟩
      rintro p (hp | rfl)
      · have := ha p hp; omega
      · simp
    · intro j d hj; simp at hj
    · intro hj; simp at hj
  · intro i data hpc hg hf
    simp only [SweepInv, hpc] at hs
    obtain ⟨ha, hb, hc⟩ := h.at_while i data hpc
    refine PushInv_grow env w0 devs0 c _ _ h rfl rfl (by simp) ?_ ?_ ?_ ?_
    · intro j a o hm
      simp only [List.mem_cons, Event.fillRTSP.injEq, List.mem_singleton, reduceCtorEq,
        false_or, List.not_mem_nil, or_false] at hm
      exact hf hm.2.2.2.symm
    · intro j hj; simp at hj
    · intro j d hj
      simp only [Pc.whileTop.injEq] at hj
      obtain ⟨rfl, rfl⟩ := hj
      obtain ⟨d0, hd0⟩ := hc
      exact ⟨ha, hb, d0, List.mem_append_left _ hd0⟩
    · intro hi; simp at hi
  · intro i data hpc hg
    simp only [SweepInv, hpc] at hs
    obtain ⟨ha, hb, hc⟩ := h.at_while i data hpc
    refine PushInv_grow env w0 devs0 c _ _ h rfl rfl (by simp) (by simp) ?_ ?_ ?_
    · intro j hj
      simp only [Pc.forTest.injEq] at hj
      subst hj
      refine ⟨fun p hp => by have := ha p hp; omega, by omega, Or.inr ?_⟩
      rw [← hs.1]; omega
    · intro j d hj; simp at hj
    · intro hi; simp at hi
  · intro _
    exact h

theorem invariants_run (env : Env Data Session W) (devs : List Data) (w0 : W) (n : Nat) :
    SweepInv env w0 (run env n (start env devs w0)) ∧
    PushInv env w0 devs (run env n (start env devs w0)) := by
  apply run_inv env (fun c => SweepInv env w0 c ∧ PushInv env w0 devs c)
  · intro c hc
    exact ⟨SweepInv_step env w0 c hc.1, PushInv_step env w0 devs c hc.1 hc.2⟩
  · refine ⟨by simp [SweepInv, start], ?_⟩
    constructor <;> simp [start]

theorem scenario_run (env : Env Data Session W) (devs : List Data) (w : W)
    (record : Data) (h : Scenario env w record) :
    (run env 7 (start env devs w)).pc = .exit ∧
    (run env 7 (start env devs w)).devices = devs ++ [record] ∧
    finishedCalls (run env 7 (start env devs w)).trace = 1 := by
  simp only [Scenario] at h
  obtain ⟨hb, hp0, hg0, hf0, hd0, hp1, hp2, hg2⟩ := h
  subst hd0
  simp [run, discoverStep, start, hb, hp0, hg0, hf0, hp1, hp2, hg2, finishedCalls,
    Event.isFinished]

/-- A step does not read the vector and only appends to it: running it with `devs`
put in front of the vector gives the same configuration with `devs` in front. -/
theorem discoverStep_frame (env : Env Data Session W) (c : Config Data Session W)
    (devs : List Data) :
    discoverStep env { c with devices := devs ++ c.devices } =
      { discoverStep env c with devices := devs ++ (discoverStep env c).devices } := by
  apply discoverStep_cases env c
    (fun c2 => discoverStep env { c with devices := devs ++ c.devices } =
      { c2 with devices := devs ++ c2.devices })
  · intro hpc
    unfold discoverStep
    simp [hpc]
  · intro i hpc hlt hp
    unfold discoverStep
    simp [hpc, hlt, hp]
  · intro i hpc hlt hp
    unfold discoverStep
    simp [hpc, hlt, hp]
  · intro i hpc hlt
    unfold discoverStep
    simp [hpc, hlt]
  · intro i data hpc hg hf
    unfold discoverStep
    simp [hpc, hg, hf]
  · intro i data hpc hg hf
    unfold discoverStep
    simp [hpc, hg, hf]
  · intro i data hpc hg
    unfold discoverStep
    simp [hpc, hg]
  · intro hpc
    unfold discoverStep
    simp [hpc]

theorem run_frame (env : Env Data Session W) (n : Nat) (c : Config Data Session W)
    (devs : List Data) :
    run env n { c with devices := devs ++ c.devices } =
      { run env n c with devices := devs ++ (run env n c).devices } := by
  induction n generalizing c with
  | zero => rfl
  | succ n ih =>
    simp only [run]
    rw [discoverStep_frame, ← ih]

theorem run_start_frame (env : Env Data Session W) (n : Nat) (devs : List Data) (w : W) :
    run env n (start env devs w) =
      { run env n (start env [] w) with
        devices := devs ++ (run env n (start env [] w)).devices } := by
  have h := run_frame env n (start env [] w) devs
  simpa [start] using h

/-- C2: the records appended by a sweep that returns are exactly the records of the
`push_back` effects, one per device index `i` in `[0, N)` whose `prepareOnvifData`
succeeded and for which a `fillRTSP` returned 0, in increasing order of `i`.  In the
three-device scenario the vector, empty at first, ends as the single resolved record
of device 0 and `discoverFinished` is called once. -/
theorem appended_records_exact (env : Env Data Session W) (devs : List Data) (w : W) :
    (∀ fuel c, discover env fuel devs w = some c →
      c.devices = devs ++ (pushes c.trace).map Prod.snd ∧
      ((pushes c.trace).map Prod.fst).Pairwise (· < ·) ∧
      ∀ i, i ∈ (pushes c.trace).map Prod.fst ↔
        (0 ≤ i ∧ i < (env.broadcast env.sessionInit w).1 ∧
         (∃ d, Event.prepareOnvifData i true d ∈ c.trace) ∧
         ∃ a o, Event.fillRTSP i a o 0 ∈ c.trace)) ∧
    (∀ record, Scenario env w record →
      ∃ c, discover env 7 [] w = some c ∧ c.devices = [record] ∧
        finishedCalls c.trace = 1) := by
  constructor
  · intro fuel c h
    obtain ⟨hc, -⟩ := discover_eq_some env fuel devs w c h
    have hinv := (invariants_run env devs w fuel).2
    rw [← hc] at hinv
    refine ⟨hinv.devices_eq, hinv.sorted, fun i => ⟨?_, ?_⟩⟩
    · intro hi
      obtain ⟨⟨j, d⟩, hp, rfl⟩ := List.mem_map.1 hi
      exact hinv.push_sound j d (mem_pushes.1 hp)
    · rintro ⟨-, -, -, a, o, hf⟩
      obtain ⟨d, hd⟩ := hinv.push_complete i a o hf
      exact List.mem_map.2 ⟨(i, d), mem_pushes.2 hd, rfl⟩
  · intro record hsc
    obtain ⟨h1, h2, h3⟩ := scenario_run env [] w record hsc
    refine ⟨run env 7 (start env [] w), ?_, by simpa using h2, h3⟩
    simp [discover, h1, Pc.isExit]

theorem appended_records_exact_witness :
    (discover scenarioEnv 7 [5] 0 = some (run scenarioEnv 7 (start scenarioEnv [5] 0)) ∧
      (run scenarioEnv 7 (start scenarioEnv [5] 0)).devices = [5, 1311]) ∧
    (Scenario scenarioEnv 0 1311 ∧
      ∃ c, discover scenarioEnv 7 [] 0 = some c ∧ c.devices = [1311] ∧
        finishedCalls c.trace = 1) :=
  ⟨⟨by decide,
    ((appended_records_exact scenarioEnv [5] 0).1 7
      (run scenarioEnv 7 (start scenarioEnv [5] 0)) (by decide)).1⟩,
   ⟨by unfold Scenario; decide,
    (appended_records_exact scenarioEnv [] 0).2 1311 (by unfold Scenario; decide)⟩⟩

/-- C3: a sweep that returns appends at most `N` records, `N` the device count
returned by `broadcast` (none when `N` is not positive); when `N = 0` the sweep
returns, leaves the vector as it was and calls `discoverFinished`. -/
theorem appended_count_bounded (env : Env Data Session W) (devs : List Data) (w : W) :
    (∀ fuel c, discover env fuel devs w = some c →
      ∃ app, c.devices = devs ++ app ∧
        app.length ≤ (env.broadcast env.sessionInit w).1.toNat ∧
        (0 ≤ (env.broadcast env.sessionInit w).1 →
          (0 : Int) ≤ app.length ∧ (app.length : Int) ≤ (env.broadcast env.sessionInit w).1)) ∧
    ((env.broadcast env.sessionInit w).1 = 0 →
      ∃ c, discover env 2 devs w = some c ∧ c.devices = devs ∧
        finishedCalls c.trace = 1) := by
  constructor
  · intro fuel c h
    obtain ⟨hc, hpc⟩ := discover_eq_some env fuel devs w c h
    have hinv := (invariants_run env devs w fuel).2
    rw [← hc] at hinv
    have hlen := hinv.at_exit hpc
    refine ⟨(pushes c.trace).map Prod.snd, hinv.devices_eq, by simpa using hlen, ?_⟩
    intro h0
    simp only [List.length_map]
    omega
  · intro h0
    refine ⟨run env 2 (start env devs w), ?_, ?_, ?_⟩ <;>
      simp [discover, run, discoverStep, start, h0, Pc.isExit, finishedCalls,
        Event.isFinished]

theorem appended_count_bounded_witness :
    (discover scenarioEnv 7 [] 0 = some (run scenarioEnv 7 (start scenarioEnv [] 0)) ∧
      ∃ app, (run scenarioEnv 7 (start scenarioEnv [] 0)).devices = [] ++ app ∧
        app.length ≤ 3) ∧
    ((emptyEnv.broadcast emptyEnv.sessionInit 0).1 = 0 ∧
      ∃ c, discover emptyEnv 2 [5, 6] 0 = some c ∧ c.devices = [5, 6] ∧
        finishedCalls c.trace = 1) :=
  ⟨⟨by decide,
    let ⟨app, h1, h2, _⟩ := (appended_count_bounded scenarioEnv [] 0).1 7
      (run scenarioEnv 7 (start scenarioEnv [] 0)) (by decide)
    ⟨app, h1, h2⟩⟩,
   ⟨by decide, (appended_count_bounded emptyEnv [5, 6] 0).2 (by decide)⟩⟩

/-- C8: a sweep that returns only appends to the vector: the final vector is the
initial one followed by the appended records, and started with any other initial
vector the sweep returns after the same number of steps with the same effects, the
same world and the same appended records. -/
theorem discover_only_appends (env : Env Data Session W) (fuel : Nat)
    (devsA devsB : List Data) (w : W) (c : Config Data Session W)
    (h : discover env fuel devsA w = some c) :
    ∃ app, c.devices = devsA ++ app ∧
      discover env fuel devsB w = some { c with devices := devsB ++ app } := by
  obtain ⟨hc, hpc⟩ := discover_eq_some env fuel devsA w c h
  refine ⟨(run env fuel (start env [] w)).devices, ?_, ?_⟩
  · rw [hc, run_start_frame]
  · rw [hc, run_start_frame] at hpc
    simp only [discover]
    rw [run_start_frame env fuel devsB, hc, run_start_frame env fuel devsA]
    simp only at hpc ⊢
    simp [hpc, Pc.isExit]

theorem discover_only_appends_witness :
    discover scenarioEnv 7 [5] 0 = some (run scenarioEnv 7 (start scenarioEnv [5] 0)) ∧
    ∃ app, (run scenarioEnv 7 (start scenarioEnv [5] 0)).devices = [5] ++ app ∧
      discover scenarioEnv 7 [8, 9] 0 =
        some { run scenarioEnv 7 (start scenarioEnv [5] 0) with devices := [8, 9] ++ app } :=
  ⟨by decide,
   discover_only_appends scenarioEnv 7 [5] [8, 9] 0
     (run scenarioEnv 7 (start scenarioEnv [5] 0)) (by decide)⟩

/-! ### Which iteration an effect belongs to -/

theorem IdxInv_step (env : Env Data Session W) (c : Config Data Session W)
    (h : IdxInv c) : IdxInv (discoverStep env c) := by
  apply discoverStep_cases
  · intro hpc
    simp only [IdxInv, hpc] at h
    simp [IdxInv, h, Event.index]
  · intro i hpc hlt hp
    simp only [IdxInv, hpc] at h
    simp only [IdxInv, List.mem_append, List.mem_singleton]
    rintro e (he | rfl) j hj
    · exact Or.inl (h e he j hj)
    · simp only [Event.index, Option.some.injEq] at hj
      exact Or.inr ⟨hj.symm, rfl⟩
  · intro i hpc hlt hp
    simp only [IdxInv, hpc] at h
    simp only [IdxInv, List.mem_append, List.mem_singleton]
    rintro e (he | rfl) j hj
    · have := h e he j hj; omega
    · simp only [Event.index, Option.some.injEq] at hj
      omega
  · intro i hpc hlt
    simp [IdxInv]
  · intro i data hpc hg hf
    simp only [IdxInv, hpc] at h
    simp only [IdxInv, List.mem_append]
    rintro e (he | he) j hj
    · rcases h e he j hj with h1 | h1 <;> omega
    · simp only [List.mem_cons, List.not_mem_nil, or_false] at he
      rcases he with rfl | rfl | rfl | rfl | rfl | rfl <;>
        (simp only [Event.index, Option.some.injEq] at hj; omega)
  · intro i data hpc hg hf
    simp only [IdxInv, hpc] at h
    simp only [IdxInv, List.mem_append]
    rintro e (he | he) j hj
    · exact h e he j hj
    · simp only [List.mem_cons, List.not_mem_nil, or_false] at he
      rcases he with rfl | rfl
      · simp only [Event.index, Option.some.injEq] at hj
        exact Or.inr ⟨hj.symm, rfl⟩
      · simp only [Event.index, Option.some.injEq] at hj
        exact Or.inr ⟨hj.symm, by simpa [Event.retrying] using hf⟩
  · intro i data hpc hg
    simp only [IdxInv, hpc] at h
    simp only [IdxInv, List.mem_append, List.mem_singleton]
    rintro e (he | rfl) j hj
    · rcases h e he j hj with h1 | h1 <;> omega
    · simp only [Event.index, Option.some.injEq] at hj
      omega
  · intro _
    exact h

theorem IdxInv_run (env : Env Data Session W) (devs : List Data) (w : W) (n : Nat) :
    IdxInv (run env n (start env devs w)) :=
  run_inv env IdxInv (IdxInv_step env) n _ (by simp [IdxInv, start])

theorem eventsOf_append (i : Int) (a b : List (Event Data)) :
    eventsOf i (a ++ b) = eventsOf i a ++ eventsOf i b := by
  simp [eventsOf]

theorem mem_eventsOf {i : Int} {e : Event Data} {tr : List (Event Data)} :
    e ∈ eventsOf i tr ↔ e ∈ tr ∧ e.index = some i := by
  simp [eventsOf]

theorem eventsOf_eq_nil {i : Int} {tr : List (Event Data)}
    (h : ∀ e ∈ tr, e.index ≠ some i) : eventsOf i tr = [] := by
  simp only [eventsOf, List.filter_eq_nil_iff]
  intro e he
  simpa using h e he

theorem eventsOf_append_other {i : Int} (tr : List (Event Data)) {evs : List (Event Data)}
    (h : ∀ e ∈ evs, e.index ≠ some i) : eventsOf i (tr ++ evs) = eventsOf i tr := by
  rw [eventsOf_append, eventsOf_eq_nil h, List.append_nil]

/-- Once past iteration `i`, a step stays past it and adds no effect to it. -/
theorem Past_step (env : Env Data Session W) (i : Int) (c : Config Data Session W)
    (h : Past i c) :
    Past i (discoverStep env c) ∧
    eventsOf i (discoverStep env c).trace = eventsOf i c.trace ∧
    (∃ app, (discoverStep env c).devices = c.devices ++ app) := by
  apply discoverStep_cases env c (fun c2 => Past i c2 ∧
    eventsOf i c2.trace = eventsOf i c.trace ∧ ∃ app, c2.devices = c.devices ++ app)
  · intro hpc
    simp [Past, hpc] at h
  · intro k hpc hlt hp
    simp only [Past, hpc] at h
    refine ⟨h, ?_, [], by simp⟩
    apply eventsOf_append_other
    simp only [List.mem_singleton, forall_eq, Event.index, ne_eq, Option.some.injEq]
    omega
  · intro k hpc hlt hp
    simp only [Past, hpc] at h
    refine ⟨by simp only [Past]; omega, ?_, [], by simp⟩
    apply eventsOf_append_other
    simp only [List.mem_singleton, forall_eq, Event.index, ne_eq, Option.some.injEq]
    omega
  · intro k hpc hlt
    refine ⟨by simp [Past], ?_, [], by simp⟩
    apply eventsOf_append_other
    simp [Event.index]
  · intro k data hpc hg hf
    simp only [Past, hpc] at h
    refine ⟨by simp only [Past]; omega, ?_, _, rfl⟩
    simp only
    apply eventsOf_append_other
    intro e he
    simp only [List.mem_cons, List.not_mem_nil, or_false] at he
    rcases he with rfl | rfl | rfl | rfl | rfl | rfl <;>
      (simp only [Event.index, ne_eq, Option.some.injEq]; omega)
  · intro k data hpc hg hf
    simp only [Past, hpc] at h
    refine ⟨h, ?_, [], by simp⟩
    simp only
    apply eventsOf_append_other
    intro e he
    simp only [List.mem_cons, List.not_mem_nil, or_false] at he
    rcases he with rfl | rfl <;>
      (simp only [Event.index, ne_eq, Option.some.injEq]; omega)
  · intro k data hpc hg
    simp only [Past, hpc] at h
    refine ⟨by simp only [Past]; omega, ?_, [], by simp⟩
    apply eventsOf_append_other
    simp only [List.mem_singleton, forall_eq, Event.index, ne_eq, Option.some.injEq]
    omega
  · intro _
    exact ⟨h, rfl, [], by simp⟩

theorem Past_run (env : Env Data Session W) (i : Int) (m : Nat)
    (c : Config Data Session W) (h : Past i c) :
    Past i (run env m c) ∧ eventsOf i (run env m c).trace = eventsOf i c.trace := by
  induction m generalizing c with
  | zero => exact ⟨h, rfl⟩
  | succ m ih =>
    obtain ⟨h1, h2, -⟩ := Past_step env i c h
    obtain ⟨h3, h4⟩ := ih (discoverStep env c) h1
    exact ⟨h3, h4.trans h2⟩

/-- The trace and the vector only grow. -/
theorem run_grows (env : Env Data Session W) (m : Nat) (c : Config Data Session W) :
    (∃ evs, (run env m c).trace = c.trace ++ evs) ∧
    (∃ app, (run env m c).devices = c.devices ++ app) := by
  induction m generalizing c with
  | zero => exact ⟨⟨[], by simp [run]⟩, ⟨[], by simp [run]⟩⟩
  | succ m ih =>
    obtain ⟨⟨evs, h1⟩, ⟨app, h2⟩⟩ := ih (discoverStep env c)
    have hs : (∃ evs, (discoverStep env c).trace = c.trace ++ evs) ∧
        (∃ app, (discoverStep env c).devices = c.devices ++ app) := by
      apply discoverStep_cases env c (fun c2 => (∃ evs, c2.trace = c.trace ++ evs) ∧
        (∃ app, c2.devices = c.devices ++ app))
      all_goals intros
      all_goals first
        | exact ⟨⟨_, rfl⟩, ⟨_, rfl⟩⟩
        | exact ⟨⟨_, rfl⟩, ⟨[], (List.append_nil _).symm⟩⟩
        | exact ⟨⟨[], (List.append_nil _).symm⟩, ⟨[], (List.append_nil _).symm⟩⟩
    obtain ⟨⟨evs0, h3⟩, ⟨app0, h4⟩⟩ := hs
    simp only [run]
    exact ⟨⟨evs0 ++ evs, by rw [h1, h3, List.append_assoc]⟩,
      ⟨app0 ++ app, by rw [h2, h4, List.append_assoc]⟩⟩

/-! ### Single steps -/

theorem step_entry (env : Env Data Session W) (c : Config Data Session W)
    (hpc : c.pc = .entry) :
    discoverStep env c =
      { c with pc := .forTest 0,
               number_of_devices := (env.broadcast c.session c.world).1,
               session := (env.broadcast c.session c.world).2.1,
               world := (env.broadcast c.session c.world).2.2,
               trace := c.trace ++ [.broadcast (env.broadcast c.session c.world).1] } := by
  simp only [discoverStep, hpc]

theorem step_parsed (env : Env Data Session W) (c : Config Data Session W) (i : Int)
    (hpc : c.pc = .forTest i) (hlt : i < c.number_of_devices)
    (hp : (env.prepareOnvifData i c.session env.dataInit c.world).1 = true) :
    discoverStep env c =
      { c with pc := .whileTop i (env.prepareOnvifData i c.session env.dataInit c.world).2.2.1,
               session := (env.prepareOnvifData i c.session env.dataInit c.world).2.1,
               world := (env.prepareOnvifData i c.session env.dataInit c.world).2.2.2,
               trace := c.trace ++ [.prepareOnvifData i true
                 (env.prepareOnvifData i c.session env.dataInit c.world).2.2.1] } := by
  simp only [discoverStep, hpc, hlt, hp, if_true]

theorem step_skipped (env : Env Data Session W) (c : Config Data Session W) (i : Int)
    (hpc : c.pc = .forTest i) (hlt : i < c.number_of_devices)
    (hp : (env.prepareOnvifData i c.session env.dataInit c.world).1 = false) :
    discoverStep env c =
      { c with pc := .forTest (i + 1),
               session := (env.prepareOnvifData i c.session env.dataInit c.world).2.1,
               world := (env.prepareOnvifData i c.session env.dataInit c.world).2.2.2,
               trace := c.trace ++ [.prepareOnvifData i false
                 (env.prepareOnvifData i c.session env.dataInit c.world).2.2.1] } := by
  simp [discoverStep, hpc, hlt, hp]

theorem step_finished (env : Env Data Session W) (c : Config Data Session W) (i : Int)
    (hpc : c.pc = .forTest i) (hge : ¬ i < c.number_of_devices) :
    discoverStep env c =
      { c with pc := .exit, world := env.discoverFinished c.world,
               trace := c.trace ++ [.discoverFinished] } := by
  simp only [discoverStep, hpc, hge, if_false]

theorem step_resolved (env : Env Data Session W) (c : Config Data Session W) (i : Int)
    (data : Data) (hpc : c.pc = .whileTop i data)
    (hg : (env.getCredential data c.world).1 = true)
    (hf : (env.fillRTSP (env.getCredential data c.world).2.1
      (env.getCredential data c.world).2.2).1 = 0) :
    discoverStep env c =
      (let g := env.getCredential data c.world
       let f := env.fillRTSP g.2.1 g.2.2
       let q := env.getProfile f.2.1 f.2.2
       let d := env.getDeviceInformation q.1 q.2
       { c with pc := .forTest (i + 1), world := d.2,
                devices := c.devices ++ [d.1],
                trace := c.trace ++
                  [.getCredential i data g.2.1 true, .fillRTSP i g.2.1 f.2.1 0,
                   .getProfile i f.2.1 q.1, .getDeviceInformation i q.1 d.1,
                   .push_back i d.1, .log i] }) := by
  simp only [discoverStep, hpc, hg, hf, if_true]

theorem step_refused (env : Env Data Session W) (c : Config Data Session W) (i : Int)
    (data : Data) (hpc : c.pc = .whileTop i data)
    (hg : (env.getCredential data c.world).1 = true)
    (hf : (env.fillRTSP (env.getCredential data c.world).2.1
      (env.getCredential data c.world).2.2).1 ≠ 0) :
    discoverStep env c =
      (let g := env.getCredential data c.world
       let f := env.fillRTSP g.2.1 g.2.2
       { c with pc := .whileTop i f.2.1, world := f.2.2,
                trace := c.trace ++
                  [.getCredential i data g.2.1 true, .fillRTSP i g.2.1 f.2.1 f.1] }) := by
  simp only [discoverStep, hpc, hg, hf, if_true, if_false]

theorem step_declined (env : Env Data Session W) (c : Config Data Session W) (i : Int)
    (data : Data) (hpc : c.pc = .whileTop i data)
    (hg : (env.getCredential data c.world).1 = false) :
    discoverStep env c =
      { c with pc := .forTest (i + 1), world := (env.getCredential data c.world).2.2,
               trace := c.trace ++ [.getCredential i data
                 (env.getCredential data c.world).2.1 false] } := by
  simp [discoverStep, hpc, hg]

theorem eventsOf_nil_at_for (env : Env Data Session W) (devs : List Data) (w : W)
    (n : Nat) (i j : Int) (hpc : (run env n (start env devs w)).pc = .forTest i)
    (hij : i ≤ j) : eventsOf j (run env n (start env devs w)).trace = [] := by
  have h := IdxInv_run env devs w n
  simp only [IdxInv, hpc] at h
  apply eventsOf_eq_nil
  intro e he hidx
  have := h e he j hidx
  omega

/-! ### Devices that are skipped or abandoned -/

/-- C5: when the sweep is at the head of the `for` loop with device `i`, its
`prepareOnvifData` succeeds and the first `getCredential` call returns false, then
two steps later the sweep is at the head of the `for` loop with `i + 1`, the vector
is unchanged, and from then on the effects of iteration `i` are that
`prepareOnvifData` and that single `getCredential` and nothing else: no `fillRTSP`,
`getProfile`, `getDeviceInformation` or `push_back`, and no second `getCredential`. -/
theorem declined_device_abandoned (env : Env Data Session W) (devs : List Data) (w : W)
    (n : Nat) (c : Config Data Session W) (i : Int)
    (hreach : run env n (start env devs w) = c)
    (hpc : c.pc = .forTest i) (hlt : i < c.number_of_devices)
    (hp : (env.prepareOnvifData i c.session env.dataInit c.world).1 = true)
    (hg : (env.getCredential
      (env.prepareOnvifData i c.session env.dataInit c.world).2.2.1
      (env.prepareOnvifData i c.session env.dataInit c.world).2.2.2).1 = false) :
    (run env 2 c).pc = .forTest (i + 1) ∧
    (run env 2 c).devices = c.devices ∧
    ∀ m, eventsOf i (run env (2 + m) c).trace =
        [.prepareOnvifData i true
            (env.prepareOnvifData i c.session env.dataInit c.world).2.2.1,
         .getCredential i
            (env.prepareOnvifData i c.session env.dataInit c.world).2.2.1
            (env.getCredential
              (env.prepareOnvifData i c.session env.dataInit c.world).2.2.1
              (env.prepareOnvifData i c.session env.dataInit c.world).2.2.2).2.1
            false] ∧
      ∀ d, (i, d) ∉ pushes (run env (2 + m) c).trace := by
  have hnil : eventsOf i c.trace = [] := by
    rw [← hreach]
    exact eventsOf_nil_at_for env devs w n i i (by rw [hreach]; exact hpc) (le_refl _)
  have h2 : run env 2 c = discoverStep env (discoverStep env c) := rfl
  have hs1 := step_parsed env c i hpc hlt hp
  have hs2 := step_declined env (discoverStep env c) i
    (env.prepareOnvifData i c.session env.dataInit c.world).2.2.1
    (by rw [hs1]) (by rw [hs1]; exact hg)
  rw [hs1] at hs2
  simp only at hs2
  have hpast : Past i (run env 2 c) := by
    rw [h2, hs1, hs2]
    simp only [Past]
    omega
  have hev : ∀ m, eventsOf i (run env (2 + m) c).trace =
      [.prepareOnvifData i true
          (env.prepareOnvifData i c.session env.dataInit c.world).2.2.1,
       .getCredential i
          (env.prepareOnvifData i c.session env.dataInit c.world).2.2.1
          (env.getCredential
            (env.prepareOnvifData i c.session env.dataInit c.world).2.2.1
            (env.prepareOnvifData i c.session env.dataInit c.world).2.2.2).2.1
          false] := by
    intro m
    rw [run_add, (Past_run env i m _ hpast).2, h2, hs1, hs2]
    simp only [List.append_assoc, eventsOf_append, hnil, List.nil_append]
    simp [eventsOf, Event.index]
  refine ⟨by rw [h2, hs1, hs2], by rw [h2, hs1, hs2], fun m => ⟨hev m, fun d hd => ?_⟩⟩
  have hmem : Event.push_back i d ∈ eventsOf i (run env (2 + m) c).trace :=
    mem_eventsOf.2 ⟨mem_pushes.1 hd, rfl⟩
  rw [hev m] at hmem
  simp at hmem

theorem declined_device_abandoned_witness :
    (run scenarioEnv 4 (start scenarioEnv [] 0)).pc = .forTest 2 ∧
    (run scenarioEnv 2 (run scenarioEnv 4 (start scenarioEnv [] 0))).pc = .forTest 3 ∧
    (run scenarioEnv 2 (run scenarioEnv 4 (start scenarioEnv [] 0))).devices = [1311] ∧
    eventsOf 2 (run scenarioEnv (2 + 1) (run scenarioEnv 4 (start scenarioEnv [] 0))).trace =
      [.prepareOnvifData 2 true 3000, .getCredential 2 3000 3001 false] :=
  have h := declined_device_abandoned scenarioEnv [] 0 4
    (run scenarioEnv 4 (start scenarioEnv [] 0)) 2 rfl (by decide) (by decide)
    (by decide) (by decide)
  ⟨by decide, h.1, h.2.1, (h.2.2 1).1⟩

/-- C6: when the sweep is at the head of the `for` loop with a device `i` of the
sweep and `prepareOnvifData` returns false, the next step makes that call and
nothing else (no `getCredential`, `fillRTSP`, callback or append), leaves the vector
unchanged and goes to the head of the `for` loop with `i + 1`; from then on the only
effect of iteration `i` is that failed call; and when `i` was the last device the
step after it calls `discoverFinished` and returns. -/
theorem failed_parse_skipped (env : Env Data Session W) (devs : List Data) (w : W)
    (n : Nat) (c : Config Data Session W) (i : Int)
    (hreach : run env n (start env devs w) = c)
    (hpc : c.pc = .forTest i) (hlt : i < c.number_of_devices)
    (hp : (env.prepareOnvifData i c.session env.dataInit c.world).1 = false) :
    (run env 1 c).pc = .forTest (i + 1) ∧
    (run env 1 c).devices = c.devices ∧
    (run env 1 c).trace = c.trace ++ [.prepareOnvifData i false
      (env.prepareOnvifData i c.session env.dataInit c.world).2.2.1] ∧
    (∀ m, eventsOf i (run env (1 + m) c).trace = [.prepareOnvifData i false
      (env.prepareOnvifData i c.session env.dataInit c.world).2.2.1] ∧
      ∀ d, (i, d) ∉ pushes (run env (1 + m) c).trace) ∧
    (i + 1 = c.number_of_devices →
      (run env 2 c).pc = .exit ∧ (run env 2 c).devices = c.devices ∧
      (run env 2 c).trace = c.trace ++ [.prepareOnvifData i false
        (env.prepareOnvifData i c.session env.dataInit c.world).2.2.1,
        .discoverFinished]) := by
  have hnil : eventsOf i c.trace = [] := by
    rw [← hreach]
    exact eventsOf_nil_at_for env devs w n i i (by rw [hreach]; exact hpc) (le_refl _)
  have h1 : run env 1 c = discoverStep env c := rfl
  have h2 : run env 2 c = discoverStep env (discoverStep env c) := rfl
  have hs1 := step_skipped env c i hpc hlt hp
  have hpast : Past i (run env 1 c) := by
    rw [h1, hs1]
    simp only [Past]
    omega
  have hev : ∀ m, eventsOf i (run env (1 + m) c).trace = [.prepareOnvifData i false
      (env.prepareOnvifData i c.session env.dataInit c.world).2.2.1] := by
    intro m
    rw [run_add, (Past_run env i m _ hpast).2, h1, hs1]
    simp only [eventsOf_append, hnil, List.nil_append]
    simp [eventsOf, Event.index]
  refine ⟨by rw [h1, hs1], by rw [h1, hs1], by rw [h1, hs1],
    fun m => ⟨hev m, fun d hd => ?_⟩, fun hlast => ?_⟩
  · have hmem : Event.push_back i d ∈ eventsOf i (run env (1 + m) c).trace :=
      mem_eventsOf.2 ⟨mem_pushes.1 hd, rfl⟩
    rw [hev m] at hmem
    simp at hmem
  · have hs2 := step_finished env (discoverStep env c) (i + 1) (by rw [hs1])
      (by rw [hs1]; simp only; omega)
    rw [hs1] at hs2
    simp only at hs2
    rw [h2, hs1, hs2]
    simp

theorem failed_parse_skipped_witness :
    (run scenarioEnv 3 (start scenarioEnv [] 0)).pc = .forTest 1 ∧
    (run scenarioEnv 1 (run scenarioEnv 3 (start scenarioEnv [] 0))).pc = .forTest 2 ∧
    eventsOf 1 (run scenarioEnv (1 + 3) (run scenarioEnv 3 (start scenarioEnv [] 0))).trace =
      [.prepareOnvifData 1 false 2000] :=
  have h := failed_parse_skipped scenarioEnv [] 0 3
    (run scenarioEnv 3 (start scenarioEnv [] 0)) 1 rfl (by decide) (by decide) (by decide)
  ⟨by decide, h.1, (h.2.2.2.1 3).1⟩

/-! ### The unbounded retry loop -/

/-- C7: when the sweep has reached the retry loop of device `i` and every attempt
made for it finds `getCredential` returning true and `fillRTSP` returning non-zero,
then after any number of further steps the sweep is still at the head of that retry
loop, the vector is as it was and `discoverFinished` has not been called; the
function does not return, whatever the fuel. -/
theorem refused_forever (env : Env Data Session W) (devs : List Data) (w : W)
    (n : Nat) (c : Config Data Session W) (i : Int) (d : Data)
    (hreach : run env n (start env devs w) = c)
    (hpc : c.pc = .whileTop i d)
    (halways : ∀ m d2, (run env m c).pc = .whileTop i d2 →
      (env.getCredential d2 (run env m c).world).1 = true ∧
      (env.fillRTSP (env.getCredential d2 (run env m c).world).2.1
        (env.getCredential d2 (run env m c).world).2.2).1 ≠ 0) :
    (∀ m, ∃ d2, (run env m c).pc = .whileTop i d2 ∧
      (run env m c).devices = c.devices ∧
      Event.discoverFinished ∉ (run env m c).trace) ∧
    (∀ fuel, Event.discoverFinished ∉ (run env fuel (start env devs w)).trace) ∧
    (∀ fuel, discover env fuel devs w = none) := by
  have hloop : ∀ m, ∃ d2, (run env m c).pc = .whileTop i d2 ∧
      (run env m c).devices = c.devices := by
    intro m
    induction m with
    | zero => exact ⟨d, hpc, rfl⟩
    | succ m ih =>
      obtain ⟨d2, h1, h2⟩ := ih
      obtain ⟨hg, hf⟩ := halways m d2 h1
      rw [run_succ, step_refused env _ i d2 h1 hg hf]
      exact ⟨_, rfl, h2⟩
  have hnotexit : ∀ fuel, (run env fuel (start env devs w)).pc ≠ .exit := by
    intro fuel hex
    rcases Nat.le_total n fuel with hle | hle
    · obtain ⟨k, rfl⟩ := Nat.exists_eq_add_of_le hle
      rw [run_add, hreach] at hex
      obtain ⟨d2, h1, -⟩ := hloop k
      rw [h1] at hex
      cases hex
    · obtain ⟨k, rfl⟩ := Nat.exists_eq_add_of_le hle
      rw [run_add, run_exit env k _ hex] at hreach
      rw [hreach, hpc] at hex
      cases hex
  have hnofin : ∀ fuel, Event.discoverFinished ∉ (run env fuel (start env devs w)).trace := by
    intro fuel
    have hinv := SweepInv_run env devs w fuel
    have hne := hnotexit fuel
    revert hinv hne
    cases hq : (run env fuel (start env devs w)).pc with
    | entry => intro hinv _; simp only [SweepInv, hq] at hinv; simp [hinv.1]
    | forTest k => intro hinv _; simp only [SweepInv, hq] at hinv; exact hinv.2.2.1
    | whileTop k d2 => intro hinv _; simp only [SweepInv, hq] at hinv; exact hinv.2.2.2.1
    | exit => intro _ hne; exact absurd rfl hne
  refine ⟨fun m => ?_, hnofin, fun fuel => ?_⟩
  · obtain ⟨d2, h1, h2⟩ := hloop m
    refine ⟨d2, h1, h2, ?_⟩
    have := hnofin (n + m)
    rwa [run_add, hreach] at this
  · have hne := hnotexit fuel
    simp only [discover]
    cases hq : (run env fuel (start env devs w)).pc with
    | exit => exact absurd hq hne
    | _ => simp [Pc.isExit]

theorem refused_forever_witness :
    (run stuckEnv 2 (start stuckEnv [] 0)).pc = .whileTop 0 7 ∧
    (∃ d2, (run stuckEnv 1000 (run stuckEnv 2 (start stuckEnv [] 0))).pc = .whileTop 0 d2) ∧
    discover stuckEnv 1000 [] 0 = none :=
  have h := refused_forever stuckEnv [] 0 2 (run stuckEnv 2 (start stuckEnv [] 0)) 0 7
    rfl (by decide) (fun _ _ _ => ⟨rfl, (by decide : (401 : Int) ≠ 0)⟩)
  ⟨by decide, let ⟨d2, h1, _⟩ := h.1 1000; ⟨d2, h1⟩, h.2.2 1000⟩

/-! ### Appended records are fully resolved -/

theorem append_eq_split {α : Type} {tr evs pre post : List α} {e : α}
    (h : tr ++ evs = pre ++ e :: post) :
    (∃ post0, tr = pre ++ e :: post0) ∨ (∃ pre1, pre = tr ++ pre1 ∧ evs = pre1 ++ e :: post) := by
  rcases List.append_eq_append_iff.1 h with ⟨a, h1, h2⟩ | ⟨b, h1, h2⟩
  · exact Or.inr ⟨a, h1, h2⟩
  · cases b with
    | nil =>
      refine Or.inr ⟨[], ?_, ?_⟩
      · simpa using h1.symm
      · simpa using h2.symm
    | cons x b =>
      simp only [List.cons_append, List.cons.injEq] at h2
      obtain ⟨rfl, -⟩ := h2
      exact Or.inl ⟨b, h1⟩

theorem BlockInv_grow (env : Env Data Session W) (devs : List Data) (w : W)
    (c c2 : Config Data Session W) (evs : List (Event Data))
    (h : BlockInv env devs w c) (htr : c2.trace = c.trace ++ evs)
    (hno : ∀ i d, Event.push_back i d ∉ evs) : BlockInv env devs w c2 := by
  intro pre post i d heq
  rw [htr] at heq
  rcases append_eq_split heq with ⟨post0, h1⟩ | ⟨pre1, -, h2⟩
  · exact h pre post0 i d h1
  · exact absurd (by rw [h2]; simp) (hno i d)

/-- The retry loop always holds the record that `prepareOnvifData` produced, as
changed by the refused attempts, and every appended record comes from it. -/
theorem loop_block_run (env : Env Data Session W) (devs : List Data) (w : W) (n : Nat) :
    LoopInv env devs w (run env n (start env devs w)) ∧
    BlockInv env devs w (run env n (start env devs w)) := by
  induction n with
  | zero =>
    refine ⟨fun i d hpc => ?_, fun pre post i d heq => ?_⟩
    · simp [run, start] at hpc
    · simp [run, start] at heq
  | succ n ih =>
    obtain ⟨hl, hb⟩ := ih
    have hidx := IdxInv_run env devs w n
    rw [run_succ]
    generalize hc : run env n (start env devs w) = c at hl hb hidx
    apply discoverStep_cases env c
      (fun c2 => LoopInv env devs w c2 ∧ BlockInv env devs w c2)
    · intro hpc
      refine ⟨fun i d h => by simp at h, BlockInv_grow env devs w c _ _ hb rfl (by simp)⟩
    · intro i hpc hlt hp
      refine ⟨fun i2 d2 h => ?_, BlockInv_grow env devs w c _ _ hb rfl (by simp)⟩
      simp only [Pc.whileTop.injEq] at h
      obtain ⟨rfl, rfl⟩ := h
      simp only [IdxInv, hpc] at hidx
      refine ⟨n, 0, ?_⟩
      simp only [hc]
      refine ⟨hpc, hlt, hp, fun e he hidx2 => ?_, fun j hj => absurd hj (Nat.not_lt_zero j),
        rfl, ?_⟩
      · have := hidx e he i hidx2
        omega
      · simp [refusedEvents]
    · intro i hpc hlt hp
      refine ⟨fun i2 d2 h => by simp at h, BlockInv_grow env devs w c _ _ hb rfl (by simp)⟩
    · intro i hpc hlt
      refine ⟨fun i2 d2 h => by simp at h, BlockInv_grow env devs w c _ _ hb rfl (by simp)⟩
    · intro k data hpc hg hf
      refine ⟨fun i2 d2 h => by simp at h, ?_⟩
      obtain ⟨m, a, hloop⟩ := hl k data hpc
      simp only at hloop
      obtain ⟨l1, l2, l3, l4, l5, l6, l7⟩ := hloop
      intro pre post i d heq
      simp only at heq
      rcases append_eq_split heq with ⟨post0, h1⟩ | ⟨pre1, h1, h2⟩
      · exact hb pre post0 i d h1
      · rcases pre1 with _ | ⟨x1, _ | ⟨x2, _ | ⟨x3, _ | ⟨x4, _ | ⟨x5, _ | ⟨x6, rest⟩⟩⟩⟩⟩⟩ <;>
          simp only [List.nil_append, List.cons_append, List.cons.injEq, reduceCtorEq,
            false_and, and_false, List.nil_eq, List.append_eq_nil] at h2
        obtain ⟨rfl, rfl, rfl, rfl, ⟨rfl, rfl⟩, -⟩ := h2
        refine ⟨m, a, ?_⟩
        simp only [l6]
        refine ⟨l1, l2, l3, l4, l5, hg, hf, trivial, ?_⟩
        rw [h1, l7]
    · intro k data hpc hg hf
      refine ⟨fun i2 d2 h => ?_, BlockInv_grow env devs w c _ _ hb rfl (by simp)⟩
      simp only [Pc.whileTop.injEq] at h
      obtain ⟨rfl, rfl⟩ := h
      obtain ⟨m, a, hloop⟩ := hl k data hpc
      simp only at hloop
      obtain ⟨l1, l2, l3, l4, l5, l6, l7⟩ := hloop
      refine ⟨m, a + 1, ?_⟩
      simp only
      refine ⟨l1, l2, l3, l4, fun j hj => ?_, ?_, ?_⟩
      · rcases Nat.lt_succ_iff_lt_or_eq.1 hj with hlt | rfl
        · exact l5 j hlt
        · rw [l6]
          simp [attemptEnds, hg, hf]
      · rw [attemptState, Function.iterate_succ_apply', ← attemptState, l6]
        rfl
      · rw [l7]
        simp only [refusedEvents, l6, List.append_assoc]
    · intro k data hpc hg
      refine ⟨fun i2 d2 h => by simp at h, BlockInv_grow env devs w c _ _ hb rfl (by simp)⟩
    · intro hpc
      exact ⟨hl, hb⟩

theorem ExclInv_step (env : Env Data Session W) (c : Config Data Session W)
    (hidx : IdxInv c) (h : ExclInv c) : ExclInv (discoverStep env c) := by
  apply discoverStep_cases
  · intro hpc i d hm
    simp only [IdxInv, hpc] at hidx
    simp [hidx] at hm
  · intro k hpc hlt hp i d hm
    have hm2 : Event.push_back i d ∈ c.trace := by simpa using hm
    simpa using h i d hm2
  · intro k hpc hlt hp i d hm
    have hm2 : Event.push_back i d ∈ c.trace := by simpa using hm
    simp only [IdxInv, hpc] at hidx
    have hik := hidx _ hm2 i rfl
    have := h i d hm2
    refine ⟨fun x hx => ?_, fun a o ho => ?_⟩
    · simp only [List.mem_append, List.mem_singleton, Event.prepareOnvifData.injEq] at hx
      rcases hx with hx | ⟨rfl, -⟩
      · exact this.1 x hx
      · omega
    · exact this.2 a o (by simpa using ho)
  · intro k hpc hlt i d hm
    have hm2 : Event.push_back i d ∈ c.trace := by simpa using hm
    simpa using h i d hm2
  · intro k data hpc hg hf i d hm
    simp only [IdxInv, hpc] at hidx
    simp only [List.mem_append, List.mem_cons, reduceCtorEq, Event.push_back.injEq,
      List.not_mem_nil, or_false, false_or] at hm
    have hold : (∀ x, Event.prepareOnvifData i false x ∉ c.trace) ∧
        (∀ a o, Event.getCredential i a o false ∉ c.trace) := by
      rcases hm with hm | ⟨rfl, -⟩
      · exact h i d hm
      · refine ⟨fun x hx => ?_, fun a o ho => ?_⟩
        · rcases hidx _ hx i rfl with h1 | ⟨-, h1⟩
          · omega
          · simp [Event.retrying] at h1
        · rcases hidx _ ho i rfl with h1 | ⟨-, h1⟩
          · omega
          · simp [Event.retrying] at h1
    refine ⟨fun x hx => hold.1 x (by simpa using hx), fun a o ho => hold.2 a o ?_⟩
    simpa using ho
  · intro k data hpc hg hf i d hm
    have hm2 : Event.push_back i d ∈ c.trace := by simpa using hm
    have := h i d hm2
    refine ⟨fun x hx => this.1 x (by simpa using hx), fun a o ho => this.2 a o ?_⟩
    simpa using ho
  · intro k data hpc hg i d hm
    have hm2 : Event.push_back i d ∈ c.trace := by simpa using hm
    simp only [IdxInv, hpc] at hidx
    have hik : i < k := by
      rcases hidx _ hm2 i rfl with h1 | ⟨-, h1⟩
      · exact h1
      · simp [Event.retrying] at h1
    have := h i d hm2
    refine ⟨fun x hx => this.1 x (by simpa using hx), fun a o ho => ?_⟩
    simp only [List.mem_append, List.mem_singleton, Event.getCredential.injEq] at ho
    rcases ho with ho | ⟨rfl, -⟩
    · exact this.2 a o ho
    · omega
  · intro _
    exact h

theorem resolved_invariants_run (env : Env Data Session W) (devs : List Data) (w0 : W)
    (n : Nat) :
    BlockInv env devs w0 (run env n (start env devs w0)) ∧
    ExclInv (run env n (start env devs w0)) := by
  have key : ∀ c : Config Data Session W, (IdxInv c ∧ ExclInv c) →
      (IdxInv (discoverStep env c) ∧ ExclInv (discoverStep env c)) := by
    rintro c ⟨h3, h5⟩
    exact ⟨IdxInv_step env c h3, ExclInv_step env c h3 h5⟩
  have hall := run_inv env _ key n (start env devs w0)
    ⟨by simp [IdxInv, start], by intro i d hm; simp [start] at hm⟩
  exact ⟨(loop_block_run env devs w0 n).2, hall.2⟩

/-- C4: at every moment of every sweep, the vector is its initial content followed by
the records of the `push_back` effects, and each `push_back` of a record `d` in
iteration `i` is fully resolved (`ResolvedBy`): `d` is the record that the successful
`prepareOnvifData` of device `i` produced, carried through the refused attempts of the
retry loop, on which the last `getCredential` returned true and the following
`fillRTSP` returned 0, and to which `getProfile` and then `getDeviceInformation` were
applied, the effects before the `push_back` being exactly these calls in this order
after the effects of the earlier iterations.  That iteration has no failed parse and
no declined credential request. -/
theorem appended_records_resolved (env : Env Data Session W) (devs : List Data) (w : W)
    (n : Nat) :
    (run env n (start env devs w)).devices =
      devs ++ (pushes (run env n (start env devs w)).trace).map Prod.snd ∧
    ∀ pre post i d,
      (run env n (start env devs w)).trace = pre ++ Event.push_back i d :: post →
      ResolvedBy env devs w i d pre ∧
      (∀ x, Event.prepareOnvifData i false x ∉ (run env n (start env devs w)).trace) ∧
      (∀ a o, Event.getCredential i a o false ∉ (run env n (start env devs w)).trace) := by
  refine ⟨(invariants_run env devs w n).2.devices_eq, fun pre post i d heq => ?_⟩
  obtain ⟨hb, he⟩ := resolved_invariants_run env devs w n
  refine ⟨hb pre post i d heq, he i d ?_⟩
  rw [heq]
  simp

theorem appended_records_resolved_witness :
    (run retryEnv 9 (start retryEnv [] 0)).trace =
      [.broadcast 2, .prepareOnvifData 0 true 1000,
       .getCredential 0 1000 1001 true, .fillRTSP 0 1001 1011 401,
       .getCredential 0 1011 1012 true, .fillRTSP 0 1012 1022 401,
       .getCredential 0 1022 1023 true, .fillRTSP 0 1023 1033 0,
       .getProfile 0 1033 1133, .getDeviceInformation 0 1133 1333] ++
      Event.push_back 0 1333 ::
      [.log 0, .prepareOnvifData 1 true 2000,
       .getCredential 1 2000 2001 true, .fillRTSP 1 2001 2011 0,
       .getProfile 1 2011 2111, .getDeviceInformation 1 2111 2311,
       .push_back 1 2311, .log 1, .discoverFinished] ∧
    ResolvedBy retryEnv [] 0 0 1333
      [.broadcast 2, .prepareOnvifData 0 true 1000,
       .getCredential 0 1000 1001 true, .fillRTSP 0 1001 1011 401,
       .getCredential 0 1011 1012 true, .fillRTSP 0 1012 1022 401,
       .getCredential 0 1022 1023 true, .fillRTSP 0 1023 1033 0,
       .getProfile 0 1033 1133, .getDeviceInformation 0 1133 1333] :=
  ⟨by decide,
   ((appended_records_resolved retryEnv [] 0 9).2 _
      [.log 0, .prepareOnvifData 1 true 2000,
       .getCredential 1 2000 2001 true, .fillRTSP 1 2001 2011 0,
       .getProfile 1 2011 2111, .getDeviceInformation 1 2111 2311,
       .push_back 1 2311, .log 1, .discoverFinished] 0 1333 (by decide)).1⟩

/-! ### Termination of the retry loop -/

theorem attemptEnds_false (env : Env Data Session W) (dw : Data × W)
    (h : attemptEnds env dw = false) :
    (env.getCredential dw.1 dw.2).1 = true ∧
    (env.fillRTSP (env.getCredential dw.1 dw.2).2.1 (env.getCredential dw.1 dw.2).2.2).1 ≠ 0 := by
  simpa [attemptEnds] using h

/-- While the attempts are refused the machine stays at the head of the retry loop and
each step makes one `getCredential` call. -/
theorem loop_runs (env : Env Data Session W) (i : Int) (d : Data)
    (c : Config Data Session W) (hpc : c.pc = .whileTop i d) (k : Nat)
    (hrefused : ∀ j, j < k → attemptEnds env (attemptState env d c.world j) = false) :
    (run env k c).pc = .whileTop i (attemptState env d c.world k).1 ∧
    (run env k c).world = (attemptState env d c.world k).2 ∧
    (run env k c).devices = c.devices ∧
    credCalls i (run env k c).trace = credCalls i c.trace + k := by
  induction k with
  | zero => exact ⟨hpc, rfl, rfl, rfl⟩
  | succ k ih =>
    obtain ⟨h1, h2, h3, h4⟩ := ih (fun j hj => hrefused j (by omega))
    have hk := attemptEnds_false env _ (hrefused k (by omega))
    rw [← h2] at hk
    rw [run_succ, step_refused env _ i _ h1 hk.1 hk.2]
    simp only [attemptState, Function.iterate_succ_apply'] at h2 ⊢
    refine ⟨?_, ?_, h3, ?_⟩
    · simp only [refusedAttempt, ← h2]
    · simp only [refusedAttempt, ← h2]
    · simp only [credCalls, eventsOf_append] at h4 ⊢
      rw [List.countP_append, h4]
      simp [eventsOf, Event.index, Event.isGetCredential]
      omega

/-- An attempt that ends the loop takes the machine to the next device with exactly
one more `getCredential` call. -/
theorem loop_ends (env : Env Data Session W) (i : Int) (d : Data)
    (c : Config Data Session W) (hpc : c.pc = .whileTop i d)
    (hends : attemptEnds env (d, c.world) = true) :
    (discoverStep env c).pc = .forTest (i + 1) ∧
    credCalls i (discoverStep env c).trace = credCalls i c.trace + 1 := by
  by_cases hg : (env.getCredential d c.world).1 = true
  · have hf : (env.fillRTSP (env.getCredential d c.world).2.1
        (env.getCredential d c.world).2.2).1 = 0 := by
      simpa [attemptEnds, hg] using hends
    rw [step_resolved env c i d hpc hg hf]
    refine ⟨rfl, ?_⟩
    simp only [credCalls, eventsOf_append]
    rw [List.countP_append]
    simp [eventsOf, Event.index, Event.isGetCredential]
  · have hg2 : (env.getCredential d c.world).1 = false := by simpa using hg
    rw [step_declined env c i d hpc hg2]
    refine ⟨rfl, ?_⟩
    simp only [credCalls, eventsOf_append]
    rw [List.countP_append]
    simp [eventsOf, Event.index, Event.isGetCredential]

/-- A retry loop whose attempt number `k` is the first to end it is left after
exactly `k + 1` steps, with `k + 1` calls of `getCredential`. -/
theorem loop_exits (env : Env Data Session W) (i : Int) (d : Data)
    (c : Config Data Session W) (hpc : c.pc = .whileTop i d) (k : Nat)
    (hends : attemptEnds env (attemptState env d c.world k) = true)
    (hfirst : ∀ j, j < k → attemptEnds env (attemptState env d c.world j) = false) :
    (run env (k + 1) c).pc = .forTest (i + 1) ∧
    credCalls i (run env (k + 1) c).trace = credCalls i c.trace + (k + 1) := by
  obtain ⟨h1, h2, -, h4⟩ := loop_runs env i d c hpc k hfirst
  have he : attemptEnds env ((attemptState env d c.world k).1, (run env k c).world) = true := by
    rw [h2]; exact hends
  obtain ⟨h5, h6⟩ := loop_ends env i _ (run env k c) h1 he
  rw [run_succ]
  exact ⟨h5, by rw [h6, h4]; omega⟩

theorem exists_first_end (env : Env Data Session W) (d : Data) (w : W)
    (h : ∃ k, attemptEnds env (attemptState env d w k) = true) :
    ∃ k, attemptEnds env (attemptState env d w k) = true ∧
      ∀ j, j < k → attemptEnds env (attemptState env d w j) = false := by
  classical
  refine ⟨Nat.find h, Nat.find_spec h, fun j hj => ?_⟩
  have := Nat.find_min h hj
  simpa using this

theorem finishedCalls_at_exit (env : Env Data Session W) (devs : List Data) (w : W)
    (n : Nat) (hpc : (run env n (start env devs w)).pc = .exit) :
    finishedCalls (run env n (start env devs w)).trace = 1 := by
  have hinv := SweepInv_run env devs w n
  simp only [SweepInv, hpc] at hinv
  obtain ⟨pre, h1, h2, -⟩ := hinv
  rw [h1, finishedCalls, List.countP_append]
  have h0 : List.countP Event.isFinished pre = 0 := by
    rw [List.countP_eq_zero]
    intro e he hfin
    cases e <;> simp [Event.isFinished] at hfin
    exact h2 he
  rw [h0]
  simp [Event.isFinished]

/-- If every retry loop the sweep enters has an attempt that ends it, the sweep
started at the head of the `for` loop reaches the exit. -/
theorem sweep_reaches_exit (env : Env Data Session W) (devs : List Data) (w : W)
    (hends : ∀ n i s1 d w1,
      (run env n (start env devs w)).pc = .forTest i →
      i < (run env n (start env devs w)).number_of_devices →
      env.prepareOnvifData i (run env n (start env devs w)).session env.dataInit
        (run env n (start env devs w)).world = (true, s1, d, w1) →
      ∃ k, attemptEnds env (attemptState env d w1 k) = true)
    (r : Nat) :
    ∀ n i, (run env n (start env devs w)).pc = .forTest i →
      ((run env n (start env devs w)).number_of_devices - i).toNat ≤ r →
      ∃ m, (run env (n + m) (start env devs w)).pc = .exit := by
  induction r with
  | zero =>
    intro n i hpc hr
    refine ⟨1, ?_⟩
    rw [run_succ, step_finished env _ i hpc (by omega)]
  | succ r ih =>
    intro n i hpc hr
    by_cases hlt : i < (run env n (start env devs w)).number_of_devices
    · cases hp : env.prepareOnvifData i (run env n (start env devs w)).session env.dataInit
          (run env n (start env devs w)).world with
      | mk ok rest =>
        obtain ⟨s1, d, w1⟩ := rest
        cases ok with
        | false =>
          have hs := step_skipped env _ i hpc hlt (by rw [hp])
          have hnext : (run env (n + 1) (start env devs w)).pc = .forTest (i + 1) := by
            rw [run_succ, hs]
          have hN : (run env (n + 1) (start env devs w)).number_of_devices =
              (run env n (start env devs w)).number_of_devices := by
            rw [run_succ, hs]
          obtain ⟨m, hm⟩ := ih (n + 1) (i + 1) hnext (by rw [hN]; omega)
          exact ⟨1 + m, by rw [← Nat.add_assoc]; exact hm⟩
        | true =>
          have hs := step_parsed env _ i hpc hlt (by rw [hp])
          rw [hp] at hs
          simp only at hs
          obtain ⟨k, hk, hfirst⟩ := exists_first_end env d w1 (hends n i s1 d w1 hpc hlt hp)
          have hpc1 : (run env (n + 1) (start env devs w)).pc = .whileTop i d := by
            rw [run_succ, hs]
          have hw1 : (run env (n + 1) (start env devs w)).world = w1 := by
            rw [run_succ, hs]
          obtain ⟨hx, -⟩ := loop_exits env i d _ hpc1 k (by rw [hw1]; exact hk)
            (by rw [hw1]; exact hfirst)
          rw [← run_add] at hx
          have hN : (run env (n + 1 + (k + 1)) (start env devs w)).number_of_devices =
              (run env n (start env devs w)).number_of_devices := by
            have h1 := SweepInv_run env devs w (n + 1 + (k + 1))
            have h2 := SweepInv_run env devs w n
            simp only [SweepInv, hx] at h1
            simp only [SweepInv, hpc] at h2
            rw [h1.1, h2.1]
          obtain ⟨m, hm⟩ := ih (n + 1 + (k + 1)) (i + 1) hx (by rw [hN]; omega)
          exact ⟨1 + (k + 1) + m, by
            have : n + (1 + (k + 1) + m) = n + 1 + (k + 1) + m := by omega
            rw [this]; exact hm⟩
    · refine ⟨1, ?_⟩
      rw [run_succ, step_finished env _ i hpc hlt]

/-- C9: the retry loop is bounded only by the callbacks.  If every retry loop the
sweep enters has some attempt at which `getCredential` returns false or `fillRTSP`
returns 0, the sweep returns and calls `discoverFinished` (once); and for a device
whose first such attempt is attempt number `k` counted from 0, a sweep that returns
has made exactly `k + 1` calls of `getCredential` in that iteration. -/
theorem retry_bounded_by_callbacks (env : Env Data Session W) (devs : List Data) (w : W)
    (hends : ∀ n i s1 d w1,
      (run env n (start env devs w)).pc = .forTest i →
      i < (run env n (start env devs w)).number_of_devices →
      env.prepareOnvifData i (run env n (start env devs w)).session env.dataInit
        (run env n (start env devs w)).world = (true, s1, d, w1) →
      ∃ k, attemptEnds env (attemptState env d w1 k) = true) :
    (∃ fuel c, discover env fuel devs w = some c ∧ finishedCalls c.trace = 1) ∧
    (∀ n i s1 d w1 k,
      (run env n (start env devs w)).pc = .forTest i →
      i < (run env n (start env devs w)).number_of_devices →
      env.prepareOnvifData i (run env n (start env devs w)).session env.dataInit
        (run env n (start env devs w)).world = (true, s1, d, w1) →
      attemptEnds env (attemptState env d w1 k) = true →
      (∀ j, j < k → attemptEnds env (attemptState env d w1 j) = false) →
      ∀ fuel c, discover env fuel devs w = some c → credCalls i c.trace = k + 1) := by
  constructor
  · have h1 : (run env 1 (start env devs w)).pc = .forTest 0 := by
      rw [run_succ, step_entry env _ rfl]
    obtain ⟨m, hm⟩ := sweep_reaches_exit env devs w hends _ 1 0 h1 (le_refl _)
    refine ⟨1 + m, run env (1 + m) (start env devs w), ?_,
      finishedCalls_at_exit env devs w (1 + m) hm⟩
    simp [discover, hm, Pc.isExit]
  · intro n i s1 d w1 k hpc hlt hp hk hfirst fuel c hc
    obtain ⟨hrun, hex⟩ := discover_eq_some env fuel devs w c hc
    have hnil := eventsOf_nil_at_for env devs w n i i hpc (le_refl _)
    have hs := step_parsed env _ i hpc hlt (by rw [hp])
    rw [hp] at hs
    simp only at hs
    have hpc1 : (run env (n + 1) (start env devs w)).pc = .whileTop i d := by
      rw [run_succ, hs]
    have hw1 : (run env (n + 1) (start env devs w)).world = w1 := by
      rw [run_succ, hs]
    have hc1 : credCalls i (run env (n + 1) (start env devs w)).trace = 0 := by
      rw [run_succ, hs]
      simp only [credCalls, eventsOf_append, hnil, List.nil_append]
      simp [eventsOf, Event.index, Event.isGetCredential]
    obtain ⟨hx, hcount⟩ := loop_exits env i d _ hpc1 k (by rw [hw1]; exact hk)
      (by rw [hw1]; exact hfirst)
    rw [← run_add] at hx hcount
    rw [hc1, Nat.zero_add] at hcount
    have hpast : Past i (run env (n + 1 + (k + 1)) (start env devs w)) := by
      simp only [Past, hx]
      omega
    rcases Nat.le_total (n + 1 + (k + 1)) fuel with hle | hle
    · obtain ⟨m, rfl⟩ := Nat.exists_eq_add_of_le hle
      rw [hrun, run_add, credCalls, (Past_run env i m _ hpast).2]
      exact hcount
    · obtain ⟨m, hm⟩ := Nat.exists_eq_add_of_le hle
      rw [hrun] at hex
      rw [hm, run_add, run_exit env m _ hex, hex] at hx
      cases hx

theorem retry_bounded_by_callbacks_witness :
    (∃ fuel c, discover retryEnv fuel [] 0 = some c ∧ finishedCalls c.trace = 1) ∧
    credCalls 0 (run retryEnv 8 (start retryEnv [] 0)).trace = 2 + 1 :=
  have hends : ∀ n i s1 d w1,
      (run retryEnv n (start retryEnv [] 0)).pc = .forTest i →
      i < (run retryEnv n (start retryEnv [] 0)).number_of_devices →
      retryEnv.prepareOnvifData i (run retryEnv n (start retryEnv [] 0)).session
        retryEnv.dataInit (run retryEnv n (start retryEnv [] 0)).world = (true, s1, d, w1) →
      ∃ k, attemptEnds retryEnv (attemptState retryEnv d w1 k) = true := by
    intro n i s1 d w1 _ _ _
    refine ⟨4, ?_⟩
    simp only [attemptEnds, attemptState, refusedAttempt, retryEnv, Function.iterate_succ,
      Function.iterate_zero, Function.comp, id]
    simp
  have h := retry_bounded_by_callbacks retryEnv [] 0 hends
  ⟨h.1, h.2 1 0 2 1000 2 2 (by decide) (by decide) (by decide) (by decide) (by decide)
    8 (run retryEnv 8 (start retryEnv [] 0)) (by decide)⟩

/-! ### The per-device state machine of the specification -/

theorem devRun_append [DecidableEq Data] (i : Int) (s : DevState Data)
    (a b : List (Event Data)) :
    devRun i s (a ++ b) = (devRun i s a).bind (fun s2 => devRun i s2 b) := by
  induction a generalizing s with
  | nil => simp [devRun]
  | cons e a ih =>
    simp only [List.cons_append, devRun]
    cases devStep i s e with
    | none => simp
    | some s2 => simpa using ih s2

theorem deviceState_append [DecidableEq Data] (i : Int) (tr evs : List (Event Data))
    (st : DevState Data) (h : deviceState i tr = some st) :
    deviceState i (tr ++ evs) = devRun i st (eventsOf i evs) := by
  simp only [deviceState] at h
  simp [deviceState, eventsOf_append, devRun_append, h]

theorem deviceState_append_other [DecidableEq Data] (i : Int) (tr evs : List (Event Data))
    (h : ∀ e ∈ evs, e.index ≠ some i) :
    deviceState i (tr ++ evs) = deviceState i tr := by
  simp only [deviceState, eventsOf_append_other tr h]

theorem DevInv_step [DecidableEq Data] (env : Env Data Session W)
    (c : Config Data Session W) (hidx : IdxInv c) (h : DevInv c) :
    DevInv (discoverStep env c) := by
  apply discoverStep_cases
  · intro hpc i
    obtain ⟨st, h1, h2⟩ := h i
    simp only [hpc] at h2
    refine ⟨st, ?_, h2⟩
    rw [deviceState_append_other _ _ _ (by simp [Event.index])]
    exact h1
  · intro k hpc hlt hp i
    obtain ⟨st, h1, h2⟩ := h i
    simp only [hpc] at h2
    simp only [IdxInv, hpc] at hidx
    by_cases hik : i = k
    · subst hik
      have hnil : eventsOf i c.trace = [] :=
        eventsOf_eq_nil (fun e he hidx2 => by have := hidx e he i hidx2; omega)
      refine ⟨.discovered (env.prepareOnvifData i c.session env.dataInit c.world).2.2.1,
        ?_, by simp⟩
      simp only [deviceState, eventsOf_append, hnil, List.nil_append]
      simp [eventsOf, Event.index, devRun, devStep]
    · refine ⟨st, ?_, by simpa [hik] using h2⟩
      rw [deviceState_append_other _ _ _ (by simpa [Event.index] using Ne.symm hik)]
      exact h1
  · intro k hpc hlt hp i
    obtain ⟨st, h1, h2⟩ := h i
    simp only [hpc] at h2
    simp only [IdxInv, hpc] at hidx
    by_cases hik : i = k
    · subst hik
      have hnil : eventsOf i c.trace = [] :=
        eventsOf_eq_nil (fun e he hidx2 => by have := hidx e he i hidx2; omega)
      refine ⟨.skipped, ?_, rfl⟩
      simp only [deviceState, eventsOf_append, hnil, List.nil_append]
      simp [eventsOf, Event.index, devRun, devStep]
    · refine ⟨st, ?_, h2⟩
      rw [deviceState_append_other _ _ _ (by simpa [Event.index] using Ne.symm hik)]
      exact h1
  · intro k hpc hlt i
    obtain ⟨st, h1, h2⟩ := h i
    simp only [hpc] at h2
    refine ⟨st, ?_, h2⟩
    rw [deviceState_append_other _ _ _ (by simp [Event.index])]
    exact h1
  · intro k data hpc hg hf i
    obtain ⟨st, h1, h2⟩ := h i
    simp only [hpc] at h2
    by_cases hik : i = k
    · subst hik
      simp only [if_true] at h2
      refine ⟨.resolved, ?_, rfl⟩
      simp only
      rw [deviceState_append i _ _ st h1]
      rcases h2 with rfl | rfl <;>
        simp [eventsOf, Event.index, devRun, devStep]
    · simp only [hik, if_false] at h2
      refine ⟨st, ?_, h2⟩
      simp only
      rw [deviceState_append_other _ _ _ (by
        intro e he
        simp only [List.mem_cons, List.not_mem_nil, or_false] at he
        rcases he with rfl | rfl | rfl | rfl | rfl | rfl <;>
          simpa [Event.index] using Ne.symm hik)]
      exact h1
  · intro k data hpc hg hf i
    obtain ⟨st, h1, h2⟩ := h i
    simp only [hpc] at h2
    by_cases hik : i = k
    · subst hik
      simp only [if_true] at h2
      refine ⟨.loginFailed (env.fillRTSP (env.getCredential data c.world).2.1
        (env.getCredential data c.world).2.2).2.1, ?_, by simp⟩
      simp only
      rw [deviceState_append i _ _ st h1]
      rcases h2 with rfl | rfl <;>
        simp [eventsOf, Event.index, devRun, devStep, hf]
    · simp only [hik, if_false] at h2
      refine ⟨st, ?_, by simpa [hik] using h2⟩
      simp only
      rw [deviceState_append_other _ _ _ (by
        intro e he
        simp only [List.mem_cons, List.not_mem_nil, or_false] at he
        rcases he with rfl | rfl <;> simpa [Event.index] using Ne.symm hik)]
      exact h1
  · intro k data hpc hg i
    obtain ⟨st, h1, h2⟩ := h i
    simp only [hpc] at h2
    by_cases hik : i = k
    · subst hik
      simp only [if_true] at h2
      refine ⟨.abandoned, ?_, rfl⟩
      rw [deviceState_append i _ _ st h1]
      rcases h2 with rfl | rfl <;>
        simp [eventsOf, Event.index, devRun, devStep]
    · simp only [hik, if_false] at h2
      refine ⟨st, ?_, h2⟩
      rw [deviceState_append_other _ _ _ (by simpa [Event.index] using Ne.symm hik)]
      exact h1
  · intro _
    exact h

theorem DevInv_run [DecidableEq Data] (env : Env Data Session W) (devs : List Data)
    (w : W) (n : Nat) : DevInv (run env n (start env devs w)) := by
  have key : ∀ c : Config Data Session W, (IdxInv c ∧ DevInv c) →
      (IdxInv (discoverStep env c) ∧ DevInv (discoverStep env c)) := by
    rintro c ⟨h1, h2⟩
    exact ⟨IdxInv_step env c h1, DevInv_step env c h1 h2⟩
  have hall := run_inv env _ key n (start env devs w)
    ⟨by simp [IdxInv, start], fun i => ⟨.idle, by simp [deviceState, start, eventsOf, devRun],
      by simp [start, DevState.settled]⟩⟩
  exact hall.2

theorem devStep_facts [DecidableEq Data] (i : Int) (s s2 : DevState Data) (e : Event Data)
    (h : devStep i s e = some s2) :
    (s2.pushed = true ↔ s.pushed = true ∨ ∃ d, e = .push_back i d) ∧
    (s2.loginDone = true ↔ s.loginDone = true ∨ ∃ a o, e = .fillRTSP i a o 0) ∧
    (s2 = .abandoned ↔ s = .abandoned ∨ ∃ a o, e = .getCredential i a o false) := by
  cases s <;> cases e <;> simp only [devStep, reduceCtorEq] at h <;>
    split at h <;> simp only [Option.some.injEq, reduceCtorEq] at h <;> subst h <;>
    (try split_ifs) <;> simp_all [DevState.pushed, DevState.loginDone]

theorem devRun_facts [DecidableEq Data] (i : Int) (evs : List (Event Data))
    (s st : DevState Data) (h : devRun i s evs = some st) :
    (st.pushed = true ↔ s.pushed = true ∨ ∃ d, Event.push_back i d ∈ evs) ∧
    (st.loginDone = true ↔ s.loginDone = true ∨ ∃ a o, Event.fillRTSP i a o 0 ∈ evs) ∧
    (st = .abandoned ↔ s = .abandoned ∨ ∃ a o, Event.getCredential i a o false ∈ evs) := by
  induction evs generalizing s with
  | nil =>
    simp only [devRun, Option.some.injEq] at h
    subst h
    simp
  | cons e es ih =>
    simp only [devRun] at h
    cases hstep : devStep i s e with
    | none => rw [hstep] at h; cases h
    | some s2 =>
      rw [hstep] at h
      obtain ⟨a1, a2, a3⟩ := ih s2 h
      obtain ⟨b1, b2, b3⟩ := devStep_facts i s s2 e hstep
      refine ⟨?_, ?_, ?_⟩
      · rw [a1, b1]
        simp only [List.mem_cons, exists_or, or_assoc]
        simp only [eq_comm]
      · rw [a2, b2]
        simp only [List.mem_cons, exists_or, or_assoc]
        simp only [eq_comm]
      · rw [a3, b3]
        simp only [List.mem_cons, exists_or, or_assoc]
        simp only [eq_comm]

theorem settled_cases (st : DevState Data) (h : st.settled = true) :
    st = .idle ∨ st = .skipped ∨ st = .resolved ∨ st = .abandoned := by
  cases st <;> simp [DevState.settled] at h ⊢

/-- C10: at every moment of every sweep the effects of each iteration `i` follow the
specification's per-device state machine (`deviceState` is defined): after a
successful `prepareOnvifData` the first call is `getCredential`; `fillRTSP` comes only
right after a `getCredential` that returned true and on the record that call left; a
non-zero `fillRTSP` leads only to another `getCredential` on the record `fillRTSP`
left; nothing follows `Resolved` or `Abandoned`.  The device is in `Resolved` exactly
when it has been appended, exactly when a `fillRTSP` returned 0; in `Abandoned`
exactly when a `getCredential` returned false; it is in `Discovered` or
`LoginFailed` only while its retry loop is running, with the loop's record; and when
the function has returned every device is idle, skipped, resolved or abandoned. -/
theorem device_state_machine [DecidableEq Data] (env : Env Data Session W)
    (devs : List Data) (w : W) (n : Nat) (i : Int) :
    ∃ st, deviceState i (run env n (start env devs w)).trace = some st ∧
      (st = .resolved ↔ ∃ d, Event.push_back i d ∈ (run env n (start env devs w)).trace) ∧
      (st = .resolved ↔
        ∃ a o, Event.fillRTSP i a o 0 ∈ (run env n (start env devs w)).trace) ∧
      (st = .abandoned ↔
        ∃ a o, Event.getCredential i a o false ∈ (run env n (start env devs w)).trace) ∧
      (∀ d, st = .discovered d ∨ st = .loginFailed d →
        (run env n (start env devs w)).pc = .whileTop i d) ∧
      (st = .idle ∨ st = .skipped ∨ st = .resolved ∨ st = .abandoned ∨
        ∃ d, st = .discovered d ∨ st = .loginFailed d) ∧
      ((run env n (start env devs w)).pc = .exit →
        st = .idle ∨ st = .skipped ∨ st = .resolved ∨ st = .abandoned) := by
  obtain ⟨st, h1, h2⟩ := DevInv_run env devs w n i
  obtain ⟨f1, f2, f3⟩ := devRun_facts i _ .idle st h1
  have hshape : st.settled = true ∨
      ∃ d, (st = .discovered d ∨ st = .loginFailed d) ∧
        (run env n (start env devs w)).pc = .whileTop i d := by
    revert h2
    cases hq : (run env n (start env devs w)).pc with
    | whileTop k d =>
      simp only
      intro h2
      by_cases hik : i = k
      · subst hik
        simp only [if_true] at h2
        exact Or.inr ⟨d, h2, rfl⟩
      · simp only [hik, if_false] at h2
        exact Or.inl h2
    | entry => exact fun h2 => Or.inl h2
    | forTest k => exact fun h2 => Or.inl h2
    | exit => exact fun h2 => Or.inl h2
  have hpush : st = .resolved ↔ st.pushed = true := by
    rcases hshape with hs | ⟨d, hd | hd, -⟩
    · rcases settled_cases st hs with rfl | rfl | rfl | rfl <;> simp [DevState.pushed]
    · subst hd; simp [DevState.pushed]
    · subst hd; simp [DevState.pushed]
  have hlogin : st = .resolved ↔ st.loginDone = true := by
    rcases hshape with hs | ⟨d, hd | hd, -⟩
    · rcases settled_cases st hs with rfl | rfl | rfl | rfl <;> simp [DevState.loginDone]
    · subst hd; simp [DevState.loginDone]
    · subst hd; simp [DevState.loginDone]
  refine ⟨st, h1, ?_, ?_, ?_, ?_, ?_, ?_⟩
  · rw [hpush, f1]
    simp [DevState.pushed, mem_eventsOf, Event.index]
  · rw [hlogin, f2]
    simp [DevState.loginDone, mem_eventsOf, Event.index]
  · rw [f3]
    simp [mem_eventsOf, Event.index]
  · intro d hd
    rcases hshape with hs | ⟨d2, hd2, hpc⟩
    · rcases hd with rfl | rfl <;> simp [DevState.settled] at hs
    · have : d = d2 := by
        rcases hd with rfl | rfl <;> rcases hd2 with h | h <;> cases h <;> rfl
      rw [this]
      exact hpc
  · rcases hshape with hs | ⟨d, hd, -⟩
    · rcases settled_cases st hs with h | h | h | h
      · exact Or.inl h
      · exact Or.inr (Or.inl h)
      · exact Or.inr (Or.inr (Or.inl h))
      · exact Or.inr (Or.inr (Or.inr (Or.inl h)))
    · exact Or.inr (Or.inr (Or.inr (Or.inr ⟨d, hd⟩)))
  · intro hpc
    rcases hshape with hs | ⟨d, -, hq⟩
    · exact settled_cases st hs
    · rw [hpc] at hq
      cases hq

theorem device_state_machine_witness :
    deviceState 0 (run retryEnv 9 (start retryEnv [] 0)).trace = some .resolved ∧
    deviceState 2 (run scenarioEnv 9 (start scenarioEnv [] 0)).trace = some .abandoned ∧
    deviceState 0 (run retryEnv 3 (start retryEnv [] 0)).trace = some (.loginFailed 1011) ∧
    ∃ st, deviceState 0 (run retryEnv 3 (start retryEnv [] 0)).trace = some st ∧
      ∀ d, st = .discovered d ∨ st = .loginFailed d →
        (run retryEnv 3 (start retryEnv [] 0)).pc = .whileTop 0 d :=
  ⟨by decide, by decide, by decide,
   let ⟨st, h1, _, _, _, h5, _⟩ := device_state_machine retryEnv [] 0 3 0
   ⟨st, h1, h5⟩⟩

end onvif
